import Mathlib

/-!
# Verification of the OpusChess rust engine against its specification

This file gives a shallow embedding in Lean 4 of the parts of the
`rust_engine` sources (`types.rs`, `board.rs`, `move_generator.rs`,
`evaluation.rs`, `search.rs`, `parallel_search.rs`, `uci.rs`) needed to
settle the frozen claims, followed by the theorems settling them.

Modelling conventions:
* Rust `u8`/`u16`/`usize`/`u64` values are modelled as `Nat`, `i8`/`i32` as
  `Int` where signedness matters.  No claim exercises integer wrap-around;
  places where the source could overflow in release builds are noted in
  comments.
* The 64-entry `squares` array is modelled as a total function `Nat → Nat`;
  every index the source actually uses is `< 64`.
* `std::collections::hash_map::DefaultHasher` (used by
  `Board::compute_hash`) is an external deterministic hash of exactly the
  four fields (squares, side to move, castling rights, en-passant square).
  It is modelled as an explicit parameter `HashFn` with that signature;
  no claim depends on the concrete hash values.
* The seeded `StdRng` stream used by `ZobristHash::new` is likewise an
  external deterministic generator; it is modelled as a parameter
  `stream : Nat → Nat` giving the successive generated values.
-/

namespace OpusChess

/-! ## types.rs: piece constants and helpers -/

def EMPTY : Nat := 0
def PAWN : Nat := 1
def KNIGHT : Nat := 2
def BISHOP : Nat := 3
def ROOK : Nat := 4
def QUEEN : Nat := 5
def KING : Nat := 6

def WHITE : Nat := 8
def BLACK : Nat := 16

def PIECE_MASK : Nat := 0b111
def COLOR_MASK : Nat := 0b11000

def WHITE_PAWN : Nat := WHITE ||| PAWN
def WHITE_KNIGHT : Nat := WHITE ||| KNIGHT
def WHITE_BISHOP : Nat := WHITE ||| BISHOP
def WHITE_ROOK : Nat := WHITE ||| ROOK
def WHITE_QUEEN : Nat := WHITE ||| QUEEN
def WHITE_KING : Nat := WHITE ||| KING

def BLACK_PAWN : Nat := BLACK ||| PAWN
def BLACK_KNIGHT : Nat := BLACK ||| KNIGHT
def BLACK_BISHOP : Nat := BLACK ||| BISHOP
def BLACK_ROOK : Nat := BLACK ||| ROOK
def BLACK_QUEEN : Nat := BLACK ||| QUEEN
def BLACK_KING : Nat := BLACK ||| KING

def CASTLE_WK : Nat := 1
def CASTLE_WQ : Nat := 2
def CASTLE_BK : Nat := 4
def CASTLE_BQ : Nat := 8

def get_piece_type (piece : Nat) : Nat := piece &&& PIECE_MASK

def get_piece_color (piece : Nat) : Nat := piece &&& COLOR_MASK

/-- Bitwise complement on `u8` masks: `!m` in Rust.  For a mask `m ≤ 255`
this equals `255 - m`. -/
def u8_not (m : Nat) : Nat := 255 - m

/-- `types.rs::parse_square`, operating on the character list of the input. -/
def parse_square (chars : List Char) : Option Nat :=
  if chars.length < 2 then none
  else
    match chars with
    | c0 :: c1 :: _ =>
      if 'a' ≤ c0 ∧ c0 ≤ 'h' then
        let file := c0.toNat - 'a'.toNat
        if '1' ≤ c1 ∧ c1 ≤ '8' then
          let rank := c1.toNat - '1'.toNat
          some (rank * 8 + file)
        else none
      else none
    | _ => none

/-- `types.rs::fen_to_piece`. -/
def fen_to_piece (c : Char) : Option Nat :=
  if c = 'P' then some WHITE_PAWN
  else if c = 'N' then some WHITE_KNIGHT
  else if c = 'B' then some WHITE_BISHOP
  else if c = 'R' then some WHITE_ROOK
  else if c = 'Q' then some WHITE_QUEEN
  else if c = 'K' then some WHITE_KING
  else if c = 'p' then some BLACK_PAWN
  else if c = 'n' then some BLACK_KNIGHT
  else if c = 'b' then some BLACK_BISHOP
  else if c = 'r' then some BLACK_ROOK
  else if c = 'q' then some BLACK_QUEEN
  else if c = 'k' then some BLACK_KING
  else none

/-! ## board.rs: moves, undo records, the board -/

/-- `board.rs::Move`. -/
structure Move where
  from_sq : Nat
  to_sq : Nat
  promotion : Nat
  is_castling : Bool
  is_en_passant : Bool
deriving DecidableEq, Repr

/-- `Move::new`. -/
def Move.new (from_sq to_sq : Nat) : Move :=
  ⟨from_sq, to_sq, 0, false, false⟩

/-- `Move::with_promotion`. -/
def Move.with_promotion (from_sq to_sq promotion : Nat) : Move :=
  ⟨from_sq, to_sq, promotion, false, false⟩

/-- `Move::castling`. -/
def Move.castling (from_sq to_sq : Nat) : Move :=
  ⟨from_sq, to_sq, 0, true, false⟩

/-- `Move::en_passant`. -/
def Move.en_passant (from_sq to_sq : Nat) : Move :=
  ⟨from_sq, to_sq, 0, false, true⟩

/-- `board.rs::UndoInfo`. -/
structure UndoInfo where
  captured_piece : Nat
  castling_rights : Nat
  en_passant_square : Int
  halfmove_clock : Nat
  moved_piece : Nat
deriving DecidableEq, Repr

/-- `board.rs::Board`.  `squares` is the 64-entry array modelled as a total
function; indices used by the source are always `< 64`. -/
structure Board where
  squares : Nat → Nat
  white_to_move : Bool
  castling_rights : Nat
  en_passant_square : Int
  halfmove_clock : Nat
  fullmove_number : Nat
  position_history : List Nat

attribute [ext] Board

/-- Pointwise array update, modelling `self.squares[i] = v`. -/
def upd (f : Nat → Nat) (i v : Nat) : Nat → Nat :=
  fun j => if j = i then v else f j

/-- The external `DefaultHasher`-based hash: a deterministic function of
exactly the four fields read by `Board::compute_hash`. -/
def HashFn : Type := (Nat → Nat) → Bool → Nat → Int → Nat

/-- `Board::compute_hash`, relative to the external hash function. -/
def compute_hash (hF : HashFn) (b : Board) : Nat :=
  hF b.squares b.white_to_move b.castling_rights b.en_passant_square

/-- `Board::make_move`.  The mutation sequence of the source is rendered as
a chain of functional updates in the same order. -/
def make_move (hF : HashFn) (b : Board) (mv : Move) : Board × UndoInfo :=
  let from_sq := mv.from_sq
  let to_sq := mv.to_sq
  let piece := b.squares from_sq
  let captured := b.squares to_sq
  let undo : UndoInfo :=
    { captured_piece :=
        if mv.is_en_passant then
          (if b.white_to_move then BLACK_PAWN else WHITE_PAWN)
        else captured
      castling_rights := b.castling_rights
      en_passant_square := b.en_passant_square
      halfmove_clock := b.halfmove_clock
      moved_piece := piece }
  let piece_type := get_piece_type piece
  -- update halfmove clock (u16 increment; wrap-around is unreachable in play)
  let halfmove := if piece_type = PAWN ∨ captured ≠ EMPTY then 0 else b.halfmove_clock + 1
  -- handle en passant capture (for generated moves to_sq∓8 stays in range)
  let sq1 :=
    if mv.is_en_passant then
      (if b.white_to_move then upd b.squares (to_sq - 8) EMPTY
       else upd b.squares (to_sq + 8) EMPTY)
    else b.squares
  -- handle castling rook movement
  let sq2 :=
    if mv.is_castling then
      (if to_sq = 6 then upd (upd sq1 7 EMPTY) 5 WHITE_ROOK
       else if to_sq = 2 then upd (upd sq1 0 EMPTY) 3 WHITE_ROOK
       else if to_sq = 62 then upd (upd sq1 63 EMPTY) 61 BLACK_ROOK
       else if to_sq = 58 then upd (upd sq1 56 EMPTY) 59 BLACK_ROOK
       else sq1)
    else sq1
  -- move the piece
  let sq3 := upd sq2 to_sq piece
  let sq4 := upd sq3 from_sq EMPTY
  -- handle promotion
  let sq5 :=
    if mv.promotion ≠ 0 then
      upd sq4 to_sq ((if b.white_to_move then WHITE else BLACK) ||| mv.promotion)
    else sq4
  -- update castling rights
  let rights1 :=
    if piece_type = KING then
      (if b.white_to_move then b.castling_rights &&& u8_not (CASTLE_WK ||| CASTLE_WQ)
       else b.castling_rights &&& u8_not (CASTLE_BK ||| CASTLE_BQ))
    else b.castling_rights
  let rights2 := if from_sq = 0 ∨ to_sq = 0 then rights1 &&& u8_not CASTLE_WQ else rights1
  let rights3 := if from_sq = 7 ∨ to_sq = 7 then rights2 &&& u8_not CASTLE_WK else rights2
  let rights4 := if from_sq = 56 ∨ to_sq = 56 then rights3 &&& u8_not CASTLE_BQ else rights3
  let rights5 := if from_sq = 63 ∨ to_sq = 63 then rights4 &&& u8_not CASTLE_BK else rights4
  -- update en passant square
  let ep : Int :=
    if piece_type = PAWN ∧ ((to_sq : Int) - (from_sq : Int)).natAbs = 16 then
      (((from_sq + to_sq) / 2 : Nat) : Int)
    else -1
  -- update fullmove number, switch side to move
  let fullmove := if ¬ b.white_to_move then b.fullmove_number + 1 else b.fullmove_number
  let b1 : Board :=
    { squares := sq5
      white_to_move := ! b.white_to_move
      castling_rights := rights5
      en_passant_square := ep
      halfmove_clock := halfmove
      fullmove_number := fullmove
      position_history := b.position_history }
  -- push the hash of the updated position onto the history
  let b2 := { b1 with position_history := b.position_history ++ [compute_hash hF b1] }
  (b2, undo)

/-- `Board::unmake_move`. -/
def unmake_move (b : Board) (mv : Move) (undo : UndoInfo) : Board :=
  let white_to_move := ! b.white_to_move
  -- restore the moved piece
  let u1 := upd b.squares mv.from_sq undo.moved_piece
  -- restore captured piece
  let u2 :=
    if mv.is_en_passant then
      (let t := upd u1 mv.to_sq EMPTY
       if white_to_move then upd t (mv.to_sq - 8) BLACK_PAWN
       else upd t (mv.to_sq + 8) WHITE_PAWN)
    else upd u1 mv.to_sq undo.captured_piece
  -- handle castling: move the rook back
  let u3 :=
    if mv.is_castling then
      (if mv.to_sq = 6 then upd (upd u2 5 EMPTY) 7 WHITE_ROOK
       else if mv.to_sq = 2 then upd (upd u2 3 EMPTY) 0 WHITE_ROOK
       else if mv.to_sq = 62 then upd (upd u2 61 EMPTY) 63 BLACK_ROOK
       else if mv.to_sq = 58 then upd (upd u2 59 EMPTY) 56 BLACK_ROOK
       else u2)
    else u2
  let fullmove := if ¬ white_to_move then b.fullmove_number - 1 else b.fullmove_number
  { squares := u3
    white_to_move := white_to_move
    castling_rights := undo.castling_rights
    en_passant_square := undo.en_passant_square
    halfmove_clock := undo.halfmove_clock
    fullmove_number := fullmove
    position_history := b.position_history.dropLast }

/-- `Board::find_king`. -/
def find_king (b : Board) (white : Bool) : Option Nat :=
  (List.range 64).find? fun sq =>
    decide (b.squares sq = (if white then WHITE_KING else BLACK_KING))

/-- `Board::repetition_count`. -/
def repetition_count (b : Board) : Nat :=
  if b.position_history.isEmpty then 1
  else
    match b.position_history.getLast? with
    | some current_hash => (b.position_history.filter (fun h => h = current_hash)).length
    | none => 1

/-- `Board::is_repetition`. -/
def is_repetition (b : Board) : Bool :=
  if b.position_history.length < 5 then false
  else decide (repetition_count b ≥ 3)

/-- `Board::is_fifty_moves`. -/
def is_fifty_moves (b : Board) : Bool :=
  decide (b.halfmove_clock ≥ 100)

/-- The `pieces` vector built at the start of
`Board::has_insufficient_material`: one `(type, color, square)` triple per
occupied square, in square order. -/
def piecesList (b : Board) : List (Nat × Nat × Nat) :=
  (List.range 64).filterMap fun sq =>
    let piece := b.squares sq
    if piece ≠ EMPTY then some (get_piece_type piece, get_piece_color piece, sq) else none

/-- `Board::has_insufficient_material`.  The source returns early from a
sequence of `if` blocks keyed on mutually exclusive lengths; the chain below
is the same decision tree. -/
def has_insufficient_material (b : Board) : Bool :=
  let pieces := piecesList b
  if pieces.length = 2 then true
  else if pieces.length = 3 ∧ pieces.any (fun p => decide (p.1 = KNIGHT ∨ p.1 = BISHOP)) then true
  else if pieces.length = 4 then
    let bishops := (pieces.filter (fun p => decide (p.1 = BISHOP))).map (fun p => (p.2.2, p.2.1))
    if bishops.length = 2 then
      match bishops with
      | (sq1, c1) :: (sq2, c2) :: _ =>
        let sq1_color := (sq1 / 8 + sq1 % 8) % 2
        let sq2_color := (sq2 / 8 + sq2 % 8) % 2
        decide (sq1_color = sq2_color ∧ c1 ≠ c2)
      | _ => false
    else false
  else false

/-! ## board.rs: FEN parsing -/

def STARTING_FEN : String := "rnbqkbnr/pppppppp/8/8/8/8/PPPPPPPP/RNBQKBNR w KQkq - 0 1"

/-- Rust's `str::split_whitespace`: maximal non-whitespace runs. -/
def split_whitespace (s : String) : List String :=
  let groups : List (List Char) :=
    s.toList.foldr
      (fun c acc =>
        if c.isWhitespace then [] :: acc
        else
          match acc with
          | g :: gs => (c :: g) :: gs
          | [] => [[c]])
      [[]]
  (groups.filter (fun g => ¬ g.isEmpty)).map fun g => String.mk g

/-- The value of a decimal digit list (used for `str::parse::<u16>`). -/
def digitsVal (cs : List Char) : Nat :=
  cs.foldl (fun acc c => acc * 10 + (c.toNat - '0'.toNat)) 0

/-- `s.parse::<u16>().unwrap_or(dflt)`: a run of decimal digits whose value
fits in `u16`, else the default.  (The source also accepts a leading `+`,
which no claim exercises.) -/
def parse_u16_or (s : String) (dflt : Nat) : Nat :=
  let cs := s.toList
  if ¬ cs.isEmpty ∧ cs.all Char.isDigit ∧ digitsVal cs < 65536 then digitsVal cs else dflt

/-- The piece-placement fold of `Board::from_fen`: one step per character of
the first FEN field, carrying `(rank, file, squares)`.  Rust stores with
`(rank * 8 + file) as usize` guarded by `sq < 64`; a negative value cast to
`usize` always fails that guard, hence the two-sided bound here. -/
def from_fen_placement_step (st : Int × Int × (Nat → Nat)) (c : Char) : Int × Int × (Nat → Nat) :=
  let (rank, file, sqs) := st
  if c = '/' then (rank - 1, 0, sqs)
  else if c.isDigit then (rank, file + ((c.toNat - '0'.toNat : Nat) : Int), sqs)
  else
    match fen_to_piece c with
    | some piece =>
      let sqi := rank * 8 + file
      let sqs2 := if 0 ≤ sqi ∧ sqi < 64 then upd sqs sqi.toNat piece else sqs
      (rank, file + 1, sqs2)
    | none => (rank, file, sqs)

/-- `Board::from_fen`. -/
def from_fen (hF : HashFn) (fen : String) : Option Board :=
  let parts := split_whitespace fen
  if parts.isEmpty then none
  else
    -- parse piece placement
    let plc := (parts.getD 0 "").toList.foldl from_fen_placement_step (7, 0, fun _ => EMPTY)
    let squares := plc.2.2
    -- parse active color
    let white_to_move := if parts.length > 1 then decide (parts.getD 1 "" ≠ "b") else true
    -- parse castling rights
    let castling_rights :=
      if parts.length > 2 ∧ parts.getD 2 "" ≠ "-" then
        (parts.getD 2 "").toList.foldl
          (fun r c =>
            if c = 'K' then r ||| CASTLE_WK
            else if c = 'Q' then r ||| CASTLE_WQ
            else if c = 'k' then r ||| CASTLE_BK
            else if c = 'q' then r ||| CASTLE_BQ
            else r)
          0
      else 0
    -- parse en passant square
    let en_passant : Int :=
      if parts.length > 3 ∧ parts.getD 3 "" ≠ "-" then
        match parse_square (parts.getD 3 "").toList with
        | some sq => (sq : Int)
        | none => -1
      else -1
    -- parse halfmove clock and fullmove number
    let halfmove := if parts.length > 4 then parse_u16_or (parts.getD 4 "") 0 else 0
    let fullmove := if parts.length > 5 then parse_u16_or (parts.getD 5 "") 1 else 1
    let b1 : Board :=
      { squares := squares
        white_to_move := white_to_move
        castling_rights := castling_rights
        en_passant_square := en_passant
        halfmove_clock := halfmove
        fullmove_number := fullmove
        position_history := [] }
    -- initialize position history
    some { b1 with position_history := [compute_hash hF b1] }

/-- `Board::new` (`from_fen(STARTING_FEN).unwrap()`; the `none` branch is
unreachable). -/
def Board.new (hF : HashFn) : Board :=
  match from_fen hF STARTING_FEN with
  | some b => b
  | none =>
    { squares := fun _ => EMPTY, white_to_move := true, castling_rights := 0
      en_passant_square := -1, halfmove_clock := 0, fullmove_number := 1
      position_history := [] }

/-! ## move_generator.rs -/

def ROOK_DIRECTIONS : List Int := [8, -8, -1, 1]
def BISHOP_DIRECTIONS : List Int := [7, 9, -7, -9]
def QUEEN_DIRECTIONS : List Int := [8, -8, -1, 1, 7, 9, -7, -9]
def KING_DIRECTIONS : List Int := [8, -8, -1, 1, 7, 9, -7, -9]
def KNIGHT_OFFSETS : List Int := [17, 15, 10, 6, -6, -10, -15, -17]

/-- `MoveGenerator::generate_pawn_moves` for the pawn on `sq`.  Rust's
`(sq as i32 + offset) as usize` followed by `to_sq < 64` rejects exactly
the offsets outside `[0, 64)`, rendered here as a two-sided bound. -/
def generate_pawn_moves (b : Board) (sq : Nat) : List Move :=
  let color := get_piece_color (b.squares sq)
  let is_white_pawn := color = WHITE
  let direction : Int := if is_white_pawn then 8 else -8
  let start_rank := if is_white_pawn then 1 else 6
  let promo_rank := if is_white_pawn then 7 else 0
  let file := sq % 8
  let rank := sq / 8
  -- single push (with nested double push / promotions)
  let to_i := (sq : Int) + direction
  let singles :=
    if 0 ≤ to_i ∧ to_i < 64 then
      let to_sq := to_i.toNat
      if b.squares to_sq = EMPTY then
        if to_sq / 8 = promo_rank then
          [QUEEN, ROOK, BISHOP, KNIGHT].map fun promo => Move.with_promotion sq to_sq promo
        else
          Move.new sq to_sq ::
            (if rank = start_rank then
              let to2_i := (sq : Int) + 2 * direction
              if 0 ≤ to2_i ∧ to2_i < 64 ∧ b.squares to2_i.toNat = EMPTY then
                [Move.new sq to2_i.toNat]
              else []
            else [])
      else []
    else []
  -- captures (including en passant)
  let caps :=
    [direction - 1, direction + 1].flatMap fun offset =>
      let cap_i := (sq : Int) + offset
      if 0 ≤ cap_i ∧ cap_i < 64 then
        let to_sq := cap_i.toNat
        let to_file := to_sq % 8
        if ((to_file : Int) - (file : Int)).natAbs = 1 then
          let target := b.squares to_sq
          (if target ≠ EMPTY ∧ get_piece_color target ≠ color then
            (if to_sq / 8 = promo_rank then
              [QUEEN, ROOK, BISHOP, KNIGHT].map fun promo => Move.with_promotion sq to_sq promo
            else [Move.new sq to_sq])
          else []) ++
          (if 0 ≤ b.en_passant_square ∧ to_sq = b.en_passant_square.toNat then
            [Move.en_passant sq to_sq]
          else [])
        else []
      else []
  singles ++ caps

/-- `MoveGenerator::generate_knight_moves`. -/
def generate_knight_moves (b : Board) (sq : Nat) : List Move :=
  let color := get_piece_color (b.squares sq)
  let file := sq % 8
  let rank := sq / 8
  KNIGHT_OFFSETS.flatMap fun offset =>
    let to_i := (sq : Int) + offset
    if 0 ≤ to_i ∧ to_i < 64 then
      let to_sq := to_i.toNat
      let to_file := to_sq % 8
      let to_rank := to_sq / 8
      if ((to_file : Int) - (file : Int)).natAbs > 2 ∨ ((to_rank : Int) - (rank : Int)).natAbs > 2 then
        []
      else
        let target := b.squares to_sq
        if target = EMPTY ∨ get_piece_color target ≠ color then [Move.new sq to_sq] else []
    else []

/-- The `loop` of `MoveGenerator::generate_sliding_moves` along one
direction.  The walk moves strictly monotonically through `0..63`, so at
most 63 iterations happen; the fuel of 64 supplied below is never
exhausted. -/
def slide_ray (b : Board) (color : Nat) (sq : Nat) (direction : Int) :
    Nat → Nat → List Move
  | 0, _ => []
  | fuel + 1, current_sq =>
    let current_file := current_sq % 8
    let next_i := (current_sq : Int) + direction
    if 0 ≤ next_i ∧ next_i < 64 then
      let next_sq := next_i.toNat
      let next_file := next_sq % 8
      let wrap_break :=
        if direction = -1 ∨ direction = 1 then
          ((next_file : Int) - (current_file : Int)).natAbs ≠ 1
        else if direction = 7 ∨ direction = -9 then
          (next_file : Int) ≠ (current_file : Int) - 1
        else if direction = 9 ∨ direction = -7 then
          (next_file : Int) ≠ (current_file : Int) + 1
        else False
      if wrap_break then []
      else
        let target := b.squares next_sq
        if target = EMPTY then
          Move.new sq next_sq :: slide_ray b color sq direction fuel next_sq
        else if get_piece_color target ≠ color then [Move.new sq next_sq]
        else []
    else []

/-- `MoveGenerator::generate_sliding_moves`. -/
def generate_sliding_moves (b : Board) (sq : Nat) (directions : List Int) : List Move :=
  let color := get_piece_color (b.squares sq)
  directions.flatMap fun direction => slide_ray b color sq direction 64 sq

/-- The `loop` of `MoveGenerator::check_sliding_attack`; same fuel
reasoning as `slide_ray`. -/
def sliding_attack_ray (b : Board) (attacker_color : Nat) (piece_types : List Nat)
    (direction : Int) : Nat → Nat → Bool
  | 0, _ => false
  | fuel + 1, current_sq =>
    let current_file := current_sq % 8
    let next_i := (current_sq : Int) + direction
    if 0 ≤ next_i ∧ next_i < 64 then
      let next_sq := next_i.toNat
      let next_file := next_sq % 8
      let wrap_break :=
        if direction = -1 ∨ direction = 1 then
          ((next_file : Int) - (current_file : Int)).natAbs ≠ 1
        else if direction = 7 ∨ direction = -9 then
          (next_file : Int) ≠ (current_file : Int) - 1
        else if direction = 9 ∨ direction = -7 then
          (next_file : Int) ≠ (current_file : Int) + 1
        else False
      if wrap_break then false
      else
        let piece := b.squares next_sq
        if piece ≠ EMPTY then
          decide (get_piece_color piece = attacker_color ∧ get_piece_type piece ∈ piece_types)
        else sliding_attack_ray b attacker_color piece_types direction fuel next_sq
    else false

/-- `MoveGenerator::check_sliding_attack`. -/
def check_sliding_attack (b : Board) (sq : Nat) (direction : Int)
    (attacker_color : Nat) (piece_types : List Nat) : Bool :=
  sliding_attack_ray b attacker_color piece_types direction 64 sq

/-- `MoveGenerator::is_square_attacked`. -/
def is_square_attacked (b : Board) (sq : Nat) (by_white : Bool) : Bool :=
  let attacker_color := if by_white then WHITE else BLACK
  let file := sq % 8
  let rank := sq / 8
  -- pawn attacks
  let pawn_direction : Int := if by_white then -8 else 8
  let pawn_hit :=
    [(sq : Int) + pawn_direction - 1, (sq : Int) + pawn_direction + 1].any fun attacker_i =>
      if 0 ≤ attacker_i ∧ attacker_i < 64 then
        let attacker_sq := attacker_i.toNat
        let att_file := attacker_sq % 8
        if ((att_file : Int) - (file : Int)).natAbs ≠ 1 then false
        else
          let piece := b.squares attacker_sq
          decide (piece ≠ EMPTY ∧ get_piece_type piece = PAWN ∧ get_piece_color piece = attacker_color)
      else false
  -- knight attacks
  let knight_hit :=
    KNIGHT_OFFSETS.any fun offset =>
      let attacker_i := (sq : Int) + offset
      if 0 ≤ attacker_i ∧ attacker_i < 64 then
        let attacker_sq := attacker_i.toNat
        let att_file := attacker_sq % 8
        let att_rank := attacker_sq / 8
        if ((att_file : Int) - (file : Int)).natAbs > 2 ∨ ((att_rank : Int) - (rank : Int)).natAbs > 2 then
          false
        else
          let piece := b.squares attacker_sq
          decide (piece ≠ EMPTY ∧ get_piece_type piece = KNIGHT ∧ get_piece_color piece = attacker_color)
      else false
  -- king attacks
  let king_hit :=
    KING_DIRECTIONS.any fun direction =>
      let attacker_i := (sq : Int) + direction
      if 0 ≤ attacker_i ∧ attacker_i < 64 then
        let attacker_sq := attacker_i.toNat
        let att_file := attacker_sq % 8
        if ((att_file : Int) - (file : Int)).natAbs > 1 then false
        else
          let piece := b.squares attacker_sq
          decide (piece ≠ EMPTY ∧ get_piece_type piece = KING ∧ get_piece_color piece = attacker_color)
      else false
  -- sliding attacks
  let rook_hit :=
    ROOK_DIRECTIONS.any fun direction =>
      check_sliding_attack b sq direction attacker_color [ROOK, QUEEN]
  let bishop_hit :=
    BISHOP_DIRECTIONS.any fun direction =>
      check_sliding_attack b sq direction attacker_color [BISHOP, QUEEN]
  pawn_hit || knight_hit || king_hit || rook_hit || bishop_hit

/-- `MoveGenerator::generate_king_moves` (normal moves plus castling). -/
def generate_king_moves (b : Board) (sq : Nat) : List Move :=
  let color := get_piece_color (b.squares sq)
  let file := sq % 8
  let normal :=
    KING_DIRECTIONS.flatMap fun direction =>
      let to_i := (sq : Int) + direction
      if 0 ≤ to_i ∧ to_i < 64 then
        let to_sq := to_i.toNat
        let to_file := to_sq % 8
        if ((to_file : Int) - (file : Int)).natAbs > 1 then []
        else
          let target := b.squares to_sq
          if target = EMPTY ∨ get_piece_color target ≠ color then [Move.new sq to_sq] else []
      else []
  let is_white_king := color = WHITE
  let enemy_is_white : Bool := if is_white_king then false else true
  let castles :=
    if ¬ is_square_attacked b sq enemy_is_white then
      (if is_white_king then
        (if b.castling_rights &&& CASTLE_WK ≠ 0 ∧ b.squares 5 = EMPTY ∧ b.squares 6 = EMPTY ∧
            ¬ is_square_attacked b 5 false ∧ ¬ is_square_attacked b 6 false then
          [Move.castling sq 6]
        else []) ++
        (if b.castling_rights &&& CASTLE_WQ ≠ 0 ∧ b.squares 1 = EMPTY ∧ b.squares 2 = EMPTY ∧
            b.squares 3 = EMPTY ∧ ¬ is_square_attacked b 2 false ∧ ¬ is_square_attacked b 3 false then
          [Move.castling sq 2]
        else [])
      else
        (if b.castling_rights &&& CASTLE_BK ≠ 0 ∧ b.squares 61 = EMPTY ∧ b.squares 62 = EMPTY ∧
            ¬ is_square_attacked b 61 true ∧ ¬ is_square_attacked b 62 true then
          [Move.castling sq 62]
        else []) ++
        (if b.castling_rights &&& CASTLE_BQ ≠ 0 ∧ b.squares 57 = EMPTY ∧ b.squares 58 = EMPTY ∧
            b.squares 59 = EMPTY ∧ ¬ is_square_attacked b 58 true ∧ ¬ is_square_attacked b 59 true then
          [Move.castling sq 58]
        else []))
    else []
  normal ++ castles

/-- `MoveGenerator::generate_pseudo_legal_moves`. -/
def generate_pseudo_legal_moves (b : Board) : List Move :=
  let color := if b.white_to_move then WHITE else BLACK
  (List.range 64).flatMap fun sq =>
    let piece := b.squares sq
    if piece = EMPTY ∨ get_piece_color piece ≠ color then []
    else
      let piece_type := get_piece_type piece
      if piece_type = PAWN then generate_pawn_moves b sq
      else if piece_type = KNIGHT then generate_knight_moves b sq
      else if piece_type = BISHOP then generate_sliding_moves b sq BISHOP_DIRECTIONS
      else if piece_type = ROOK then generate_sliding_moves b sq ROOK_DIRECTIONS
      else if piece_type = QUEEN then generate_sliding_moves b sq QUEEN_DIRECTIONS
      else if piece_type = KING then generate_king_moves b sq
      else []

/-- `MoveGenerator::is_legal`: make the move on a clone and test whether the
mover's king is attacked (the source then unmakes on the clone, which has no
observable effect). -/
def is_legal (hF : HashFn) (b : Board) (mv : Move) : Bool :=
  let temp := (make_move hF b mv).1
  let king_sq := find_king temp (! temp.white_to_move)
  let in_check :=
    match king_sq with
    | some s => is_square_attacked temp s temp.white_to_move
    | none => true
  ! in_check

/-- `MoveGenerator::generate_legal_moves`. -/
def generate_legal_moves (hF : HashFn) (b : Board) : List Move :=
  (generate_pseudo_legal_moves b).filter fun mv => is_legal hF b mv

/-- `MoveGenerator::is_in_check`. -/
def is_in_check (b : Board) : Bool :=
  match find_king b b.white_to_move with
  | some king_sq => is_square_attacked b king_sq (! b.white_to_move)
  | none => false

/-! ## evaluation.rs

Every helper below reads only the `squares` field of the board it is handed
in the source, so each is rendered as a function of the squares array; the
final `evaluate` takes the board and applies the side-to-move negation. -/

def PIECE_VALUES : List Int := [0, 100, 320, 330, 500, 900, 20000]

/-- `PIECE_VALUES[i]` (indices used by the source are always `< 7`). -/
def piece_value (i : Nat) : Int := PIECE_VALUES.getD i 0

def PAWN_PST : List Int :=
  [0, 0, 0, 0, 0, 0, 0, 0,
   5, 10, 10, -20, -20, 10, 10, 5,
   5, -5, -10, 0, 0, -10, -5, 5,
   0, 0, 0, 20, 20, 0, 0, 0,
   5, 5, 10, 25, 25, 10, 5, 5,
   10, 10, 20, 30, 30, 20, 10, 10,
   50, 50, 50, 50, 50, 50, 50, 50,
   0, 0, 0, 0, 0, 0, 0, 0]

def KNIGHT_PST : List Int :=
  [-50, -40, -30, -30, -30, -30, -40, -50,
   -40, -20, 0, 5, 5, 0, -20, -40,
   -30, 5, 10, 15, 15, 10, 5, -30,
   -30, 0, 15, 20, 20, 15, 0, -30,
   -30, 5, 15, 20, 20, 15, 5, -30,
   -30, 0, 10, 15, 15, 10, 0, -30,
   -40, -20, 0, 0, 0, 0, -20, -40,
   -50, -40, -30, -30, -30, -30, -40, -50]

def BISHOP_PST : List Int :=
  [-20, -10, -10, -10, -10, -10, -10, -20,
   -10, 5, 0, 0, 0, 0, 5, -10,
   -10, 10, 10, 10, 10, 10, 10, -10,
   -10, 0, 10, 10, 10, 10, 0, -10,
   -10, 5, 5, 10, 10, 5, 5, -10,
   -10, 0, 5, 10, 10, 5, 0, -10,
   -10, 0, 0, 0, 0, 0, 0, -10,
   -20, -10, -10, -10, -10, -10, -10, -20]

def ROOK_PST : List Int :=
  [0, 0, 0, 5, 5, 0, 0, 0,
   -5, 0, 0, 0, 0, 0, 0, -5,
   -5, 0, 0, 0, 0, 0, 0, -5,
   -5, 0, 0, 0, 0, 0, 0, -5,
   -5, 0, 0, 0, 0, 0, 0, -5,
   -5, 0, 0, 0, 0, 0, 0, -5,
   5, 10, 10, 10, 10, 10, 10, 5,
   0, 0, 0, 0, 0, 0, 0, 0]

def QUEEN_PST : List Int :=
  [-20, -10, -10, -5, -5, -10, -10, -20,
   -10, 0, 5, 0, 0, 0, 0, -10,
   -10, 5, 5, 5, 5, 5, 0, -10,
   0, 0, 5, 5, 5, 5, 0, -5,
   -5, 0, 5, 5, 5, 5, 0, -5,
   -10, 0, 5, 5, 5, 5, 0, -10,
   -10, 0, 0, 0, 0, 0, 0, -10,
   -20, -10, -10, -5, -5, -10, -10, -20]

def KING_MIDDLEGAME_PST : List Int :=
  [20, 30, 10, 0, 0, 10, 30, 20,
   20, 20, 0, 0, 0, 0, 20, 20,
   -10, -20, -20, -20, -20, -20, -20, -10,
   -20, -30, -30, -40, -40, -30, -30, -20,
   -30, -40, -40, -50, -50, -40, -40, -30,
   -30, -40, -40, -50, -50, -40, -40, -30,
   -30, -40, -40, -50, -50, -40, -40, -30,
   -30, -40, -40, -50, -50, -40, -40, -30]

def KING_ENDGAME_PST : List Int :=
  [-50, -30, -30, -30, -30, -30, -30, -50,
   -30, -30, 0, 0, 0, 0, -30, -30,
   -30, -10, 20, 30, 30, 20, -10, -30,
   -30, -10, 30, 40, 40, 30, -10, -30,
   -30, -10, 30, 40, 40, 30, -10, -30,
   -30, -10, 20, 30, 30, 20, -10, -30,
   -30, -20, -10, 0, 0, -10, -20, -30,
   -50, -40, -30, -20, -20, -30, -40, -50]

def DOUBLED_PAWN_PENALTY : Int := -15
def ISOLATED_PAWN_PENALTY : Int := -20
def PASSED_PAWN_BONUS : List Int := [0, 10, 20, 35, 60, 100, 150, 0]
def PAWN_CHAIN_BONUS : Int := 5

def BISHOP_PAIR_BONUS : Int := 50
def ROOK_ON_OPEN_FILE_BONUS : Int := 25
def ROOK_ON_SEMI_OPEN_FILE_BONUS : Int := 15
def ROOK_ON_7TH_RANK_BONUS : Int := 30

def KNIGHT_MOBILITY_BONUS : Int := 4
def BISHOP_MOBILITY_BONUS : Int := 5
def ROOK_MOBILITY_BONUS : Int := 3
def QUEEN_MOBILITY_BONUS : Int := 2

def CENTER_SQUARES : List Nat := [27, 28, 35, 36]
def CENTER_PAWN_BONUS : Int := 15

/-- `evaluation.rs::get_pst_value`. -/
def get_pst_value (piece_type : Nat) (sq : Nat) (is_white : Bool) (is_endgame_pos : Bool) : Int :=
  let pst :=
    if piece_type = PAWN then PAWN_PST
    else if piece_type = KNIGHT then KNIGHT_PST
    else if piece_type = BISHOP then BISHOP_PST
    else if piece_type = ROOK then ROOK_PST
    else if piece_type = QUEEN then QUEEN_PST
    else if piece_type = KING then
      (if is_endgame_pos then KING_ENDGAME_PST else KING_MIDDLEGAME_PST)
    else []
  if pst.isEmpty then 0
  else
    let index :=
      if is_white then sq
      else
        let rank := sq / 8
        let file := sq % 8
        (7 - rank) * 8 + file
    pst.getD index 0

/-- `evaluation.rs::count_material` (reads only `board.squares`). -/
def count_material (squares : Nat → Nat) : Int × Int :=
  (List.range 64).foldl
    (fun (acc : Int × Int) sq =>
      let piece := squares sq
      if piece = EMPTY then acc
      else
        let piece_type := get_piece_type piece
        if piece_type = KING then acc
        else
          let value := piece_value piece_type
          if get_piece_color piece = WHITE then (acc.1 + value, acc.2)
          else (acc.1, acc.2 + value))
    (0, 0)

/-- `evaluation.rs::is_endgame`. -/
def is_endgame (squares : Nat → Nat) : Bool :=
  let m := count_material squares
  decide (m.1 ≤ 1300 ∧ m.2 ≤ 1300)

/-- `evaluation.rs::get_pawn_positions`. -/
def get_pawn_positions (squares : Nat → Nat) : List Nat × List Nat :=
  ((List.range 64).filter fun sq => decide (squares sq = WHITE_PAWN),
   (List.range 64).filter fun sq => decide (squares sq = BLACK_PAWN))

/-- `evaluation.rs::evaluate_pawn_structure`.  The per-file pawn counts of
the source's `white_files`/`black_files` arrays are rendered as count
functions over the pawn lists. -/
def evaluate_pawn_structure (squares : Nat → Nat) (white_pawns black_pawns : List Nat) : Int :=
  let white_files : Nat → Nat := fun f => (white_pawns.filter fun sq => decide (sq % 8 = f)).length
  let black_files : Nat → Nat := fun f => (black_pawns.filter fun sq => decide (sq % 8 = f)).length
  let white_score :=
    white_pawns.foldl
      (fun score sq =>
        let file := sq % 8
        let rank := sq / 8
        let score := if white_files file > 1 then score + DOUBLED_PAWN_PENALTY else score
        let has_neighbor :=
          (file > 0 ∧ white_files (file - 1) > 0) ∨ (file < 7 ∧ white_files (file + 1) > 0)
        let score := if ¬ has_neighbor then score + ISOLATED_PAWN_PENALTY else score
        let is_passed :=
          (List.range' (file - 1) (min (file + 1) 7 + 1 - (file - 1))).all fun check_file =>
            (List.range' (rank + 1) (8 - (rank + 1))).all fun check_rank =>
              decide (squares (check_rank * 8 + check_file) ≠ BLACK_PAWN)
        let score := if is_passed then score + PASSED_PAWN_BONUS.getD rank 0 else score
        let score :=
          if sq ≥ 9 then
            let defender1 := sq - 9
            let defender2 := sq - 7
            if (file > 0 ∧ squares defender1 = WHITE_PAWN) ∨
               (file < 7 ∧ squares defender2 = WHITE_PAWN) then
              score + PAWN_CHAIN_BONUS
            else score
          else score
        score)
      0
  let total :=
    black_pawns.foldl
      (fun score sq =>
        let file := sq % 8
        let rank := sq / 8
        let score := if black_files file > 1 then score - DOUBLED_PAWN_PENALTY else score
        let has_neighbor :=
          (file > 0 ∧ black_files (file - 1) > 0) ∨ (file < 7 ∧ black_files (file + 1) > 0)
        let score := if ¬ has_neighbor then score - ISOLATED_PAWN_PENALTY else score
        let is_passed :=
          (List.range' (file - 1) (min (file + 1) 7 + 1 - (file - 1))).all fun check_file =>
            (List.range rank).all fun check_rank =>
              decide (squares (check_rank * 8 + check_file) ≠ WHITE_PAWN)
        let score := if is_passed then score - PASSED_PAWN_BONUS.getD (7 - rank) 0 else score
        let score :=
          if sq ≤ 54 then
            let defender1 := sq + 9
            let defender2 := sq + 7
            if (file < 7 ∧ defender1 < 64 ∧ squares defender1 = BLACK_PAWN) ∨
               (file > 0 ∧ squares defender2 = BLACK_PAWN) then
              score - PAWN_CHAIN_BONUS
            else score
          else score
        score)
      white_score
  total

/-- `evaluation.rs::evaluate_pieces`. -/
def evaluate_pieces (squares : Nat → Nat) (white_pawns black_pawns : List Nat) : Int :=
  let white_pawn_files := white_pawns.map fun sq => sq % 8
  let black_pawn_files := black_pawns.map fun sq => sq % 8
  let st :=
    (List.range 64).foldl
      (fun (st : Int × Nat × Nat) sq =>
        let (score, white_bishops, black_bishops) := st
        let piece := squares sq
        if piece = EMPTY then st
        else
          let piece_type := get_piece_type piece
          let is_white := get_piece_color piece = WHITE
          let file := sq % 8
          let rank := sq / 8
          if piece_type = BISHOP then
            if is_white then (score, white_bishops + 1, black_bishops)
            else (score, white_bishops, black_bishops + 1)
          else if piece_type = ROOK then
            if is_white then
              let score :=
                if ¬ file ∈ white_pawn_files ∧ ¬ file ∈ black_pawn_files then
                  score + ROOK_ON_OPEN_FILE_BONUS
                else if ¬ file ∈ white_pawn_files then score + ROOK_ON_SEMI_OPEN_FILE_BONUS
                else score
              let score := if rank = 6 then score + ROOK_ON_7TH_RANK_BONUS else score
              (score, white_bishops, black_bishops)
            else
              let score :=
                if ¬ file ∈ white_pawn_files ∧ ¬ file ∈ black_pawn_files then
                  score - ROOK_ON_OPEN_FILE_BONUS
                else if ¬ file ∈ black_pawn_files then score - ROOK_ON_SEMI_OPEN_FILE_BONUS
                else score
              let score := if rank = 1 then score - ROOK_ON_7TH_RANK_BONUS else score
              (score, white_bishops, black_bishops)
          else st)
      (0, 0, 0)
  let score := st.1
  let score := if st.2.1 ≥ 2 then score + BISHOP_PAIR_BONUS else score
  if st.2.2 ≥ 2 then score - BISHOP_PAIR_BONUS else score

/-- The ray-walking loop of `evaluation.rs::count_mobility` for bishops:
all four diagonal directions use the `abs_diff != 1` wrap guard. -/
def mobility_ray_bishop (squares : Nat → Nat) (color : Nat) (d : Int) :
    Nat → Nat → Nat
  | 0, _ => 0
  | fuel + 1, current =>
    let curr_file := current % 8
    let next_i : Int := (current : Int) + d
    if 0 ≤ next_i ∧ next_i < 64 then
      let next_sq := next_i.toNat
      if ((next_sq % 8 : Int) - (curr_file : Int)).natAbs ≠ 1 then 0
      else
        let target := squares next_sq
        if target = EMPTY then 1 + mobility_ray_bishop squares color d fuel next_sq
        else if get_piece_color target ≠ color then 1
        else 0
    else 0

/-- The ray-walking loop of `evaluation.rs::count_mobility` for rooks:
only the horizontal directions check for file wrap. -/
def mobility_ray_rook (squares : Nat → Nat) (color : Nat) (d : Int) :
    Nat → Nat → Nat
  | 0, _ => 0
  | fuel + 1, current =>
    let curr_file := current % 8
    let next_i : Int := (current : Int) + d
    if 0 ≤ next_i ∧ next_i < 64 then
      let next_sq := next_i.toNat
      if (d = 1 ∨ d = -1) ∧ ((next_sq % 8 : Int) - (curr_file : Int)).natAbs ≠ 1 then 0
      else
        let target := squares next_sq
        if target = EMPTY then 1 + mobility_ray_rook squares color d fuel next_sq
        else if get_piece_color target ≠ color then 1
        else 0
    else 0

/-- The ray-walking loop of `evaluation.rs::count_mobility` for queens. -/
def mobility_ray_queen (squares : Nat → Nat) (color : Nat) (d : Int) :
    Nat → Nat → Nat
  | 0, _ => 0
  | fuel + 1, current =>
    let curr_file := current % 8
    let next_i : Int := (current : Int) + d
    if 0 ≤ next_i ∧ next_i < 64 then
      let next_sq := next_i.toNat
      if (d = 1 ∨ d = -1 ∨ d = 7 ∨ d = -9 ∨ d = 9 ∨ d = -7) ∧
         ((next_sq % 8 : Int) - (curr_file : Int)).natAbs ≠ 1 then 0
      else
        let target := squares next_sq
        if target = EMPTY then 1 + mobility_ray_queen squares color d fuel next_sq
        else if get_piece_color target ≠ color then 1
        else 0
    else 0

def MOBILITY_KNIGHT_OFFSETS : List Int := [17, 15, 10, 6, -6, -10, -15, -17]
def MOBILITY_BISHOP_DIRS : List Int := [7, 9, -7, -9]
def MOBILITY_ROOK_DIRS : List Int := [8, -8, 1, -1]
def MOBILITY_QUEEN_DIRS : List Int := [8, -8, 1, -1, 7, 9, -7, -9]

/-- `evaluation.rs::count_mobility`. -/
def count_mobility (squares : Nat → Nat) (sq : Nat) (piece_type : Nat) (is_white : Bool) : Int :=
  let file := sq % 8
  let color := if is_white then WHITE else BLACK
  if piece_type = KNIGHT then
    MOBILITY_KNIGHT_OFFSETS.foldl
      (fun moves offset =>
        let to_i := (sq : Int) + offset
        if 0 ≤ to_i ∧ to_i < 64 then
          let to_sq := to_i.toNat
          if ((to_sq % 8 : Int) - (file : Int)).natAbs > 2 then moves
          else
            let target := squares to_sq
            if target = EMPTY ∨ get_piece_color target ≠ color then moves + 1 else moves
        else moves)
      0
  else if piece_type = BISHOP then
    MOBILITY_BISHOP_DIRS.foldl (fun moves d => moves + (mobility_ray_bishop squares color d 64 sq : Int)) 0
  else if piece_type = ROOK then
    MOBILITY_ROOK_DIRS.foldl (fun moves d => moves + (mobility_ray_rook squares color d 64 sq : Int)) 0
  else if piece_type = QUEEN then
    MOBILITY_QUEEN_DIRS.foldl (fun moves d => moves + (mobility_ray_queen squares color d 64 sq : Int)) 0
  else 0

/-- `evaluation.rs::evaluate_mobility`. -/
def evaluate_mobility (squares : Nat → Nat) : Int :=
  (List.range 64).foldl
    (fun score sq =>
      let piece := squares sq
      if piece = EMPTY then score
      else
        let piece_type := get_piece_type piece
        let is_white := get_piece_color piece = WHITE
        if piece_type = KNIGHT ∨ piece_type = BISHOP ∨ piece_type = ROOK ∨ piece_type = QUEEN then
          let bonus_per_move :=
            if piece_type = KNIGHT then KNIGHT_MOBILITY_BONUS
            else if piece_type = BISHOP then BISHOP_MOBILITY_BONUS
            else if piece_type = ROOK then ROOK_MOBILITY_BONUS
            else QUEEN_MOBILITY_BONUS
          let moves := count_mobility squares sq piece_type (decide is_white)
          let bonus := moves * bonus_per_move
          if is_white then score + bonus else score - bonus
        else score)
    0

/-- `evaluation.rs::evaluate_center_control`. -/
def evaluate_center_control (squares : Nat → Nat) : Int :=
  CENTER_SQUARES.foldl
    (fun score sq =>
      let piece := squares sq
      if piece ≠ EMPTY ∧ get_piece_type piece = PAWN then
        if get_piece_color piece = WHITE then score + CENTER_PAWN_BONUS
        else score - CENTER_PAWN_BONUS
      else score)
    0

/-- The white-perspective total of `evaluation.rs::evaluate` (everything
before the final side-to-move negation; a function of the squares only). -/
def evaluate_white_score (squares : Nat → Nat) : Int :=
  let endgame := is_endgame squares
  let pawns := get_pawn_positions squares
  let white_pawns := pawns.1
  let black_pawns := pawns.2
  let material_pst :=
    (List.range 64).foldl
      (fun score sq =>
        let piece := squares sq
        if piece = EMPTY then score
        else
          let piece_type := get_piece_type piece
          let is_white := get_piece_color piece = WHITE
          let material_value := piece_value piece_type
          let pst_value := get_pst_value piece_type sq (decide is_white) endgame
          if is_white then score + (material_value + pst_value)
          else score - (material_value + pst_value))
      0
  material_pst +
    evaluate_pawn_structure squares white_pawns black_pawns +
    evaluate_pieces squares white_pawns black_pawns +
    evaluate_mobility squares +
    evaluate_center_control squares

/-- `evaluation.rs::evaluate`: white-perspective score, negated when black
is to move. -/
def evaluate (b : Board) : Int :=
  let score := evaluate_white_score b.squares
  if b.white_to_move then score else -score

/-- `evaluation.rs::evaluate_move` (MVV-LVA plus promotion value). -/
def evaluate_move (b : Board) (mv : Move) : Int :=
  let victim := b.squares mv.to_sq
  let score : Int :=
    if victim ≠ EMPTY then
      let victim_value := piece_value (get_piece_type victim)
      let attacker := b.squares mv.from_sq
      let attacker_value := piece_value (get_piece_type attacker)
      10 * victim_value - attacker_value
    else 0
  if mv.promotion ≠ 0 then score + piece_value mv.promotion else score

/-! ## search.rs: constants, Zobrist hashing, transposition table -/

def INFINITY : Int := 100000
def MATE_SCORE : Int := 50000
def MAX_DEPTH : Nat := 100

def TT_EXACT : Nat := 0
def TT_ALPHA : Nat := 1
def TT_BETA : Nat := 2

def NULL_MOVE_REDUCTION : Int := 2
def LMR_FULL_DEPTH_MOVES : Nat := 4
def LMR_REDUCTION_LIMIT : Int := 3
def FUTILITY_MARGIN : List Int := [0, 200, 300, 500]
def CHECK_EXTENSION : Int := 1
def CONTEMPT : Int := 25

/-- `search.rs::ZobristHash`: the key tables. -/
structure ZobristHash where
  piece_keys : Nat → Nat → Nat
  side_key : Nat
  castling_keys : Nat → Nat
  ep_keys : Nat → Nat

/-- `ZobristHash::new`, relative to the deterministic stream of values the
seeded `StdRng::seed_from_u64(12345)` produces.  The generation order of the
source (piece keys row-major, then the side key, then 16 castling keys, then
9 en-passant keys) fixes which stream position each key reads. -/
def ZobristHash.new (stream : Nat → Nat) : ZobristHash :=
  { piece_keys := fun piece sq => stream (piece * 64 + sq)
    side_key := stream 2048
    castling_keys := fun i => stream (2049 + i)
    ep_keys := fun i => stream (2065 + i) }

/-- `ZobristHash::hash_position`. -/
def hash_position (z : ZobristHash) (b : Board) : Nat :=
  let h :=
    (List.range 64).foldl
      (fun h sq =>
        let piece := b.squares sq
        if piece ≠ EMPTY then h ^^^ z.piece_keys piece sq else h)
      0
  let h := if ¬ b.white_to_move then h ^^^ z.side_key else h
  let h := h ^^^ z.castling_keys b.castling_rights
  let ep_idx :=
    if 0 ≤ b.en_passant_square then b.en_passant_square.toNat % 8 else 8
  h ^^^ z.ep_keys ep_idx

/-- `search.rs::TTEntry`. -/
structure TTEntry where
  hash_key : Nat
  depth : Int
  score : Int
  flag : Nat
  best_move : Option Move
deriving DecidableEq, Repr

/-- `search.rs::TranspositionTable`: the `HashMap<u64, TTEntry>` keyed by
`hash & mask` is modelled as a function from indices to optional entries. -/
structure TranspositionTable where
  table : Nat → Option TTEntry
  mask : Nat
  hits : Nat
  writes : Nat

/-- `TranspositionTable::probe` (increments `hits` on a full-key match). -/
def tt_probe (tt : TranspositionTable) (hash_key : Nat) :
    Option TTEntry × TranspositionTable :=
  match tt.table (hash_key &&& tt.mask) with
  | some e =>
    if e.hash_key = hash_key then (some e, { tt with hits := tt.hits + 1 })
    else (none, tt)
  | none => (none, tt)

/-- `TranspositionTable::store`. -/
def tt_store (tt : TranspositionTable) (hash_key : Nat) (depth : Int) (score : Int)
    (flag : Nat) (best_move : Option Move) : TranspositionTable :=
  let index := hash_key &&& tt.mask
  let should_replace :=
    match tt.table index with
    | none => true
    | some existing => decide (depth ≥ existing.depth ∨ hash_key = existing.hash_key)
  if should_replace then
    { tt with
      table := fun i =>
        if i = index then some ⟨hash_key, depth, score, flag, best_move⟩ else tt.table i
      writes := tt.writes + 1 }
  else tt

/-! ## parallel_search.rs: the shared transposition table

`SharedTranspositionTable` wraps the same map in a mutex with atomic
counters; under the lock its `store` runs the same replacement policy.  The
sequential model below is that critical section. -/

/-- `parallel_search.rs::SharedTTEntry`. -/
structure SharedTTEntry where
  hash_key : Nat
  depth : Int
  score : Int
  flag : Nat
  best_move : Option Move
deriving DecidableEq, Repr

/-- `parallel_search.rs::SharedTranspositionTable` (mutex and atomics
erased; `hits`/`writes` are the atomic counters). -/
structure SharedTranspositionTable where
  table : Nat → Option SharedTTEntry
  mask : Nat
  hits : Nat
  writes : Nat

/-- `SharedTranspositionTable::store`. -/
def shared_tt_store (tt : SharedTranspositionTable) (hash_key : Nat) (depth : Int)
    (score : Int) (flag : Nat) (best_move : Option Move) : SharedTranspositionTable :=
  let index := hash_key &&& tt.mask
  let should_replace :=
    match tt.table index with
    | none => true
    | some existing => decide (depth ≥ existing.depth ∨ hash_key = existing.hash_key)
  if should_replace then
    { tt with
      table := fun i =>
        if i = index then some ⟨hash_key, depth, score, flag, best_move⟩ else tt.table i
      writes := tt.writes + 1 }
  else tt

/-! ## search.rs: the search engine -/

/-- The mutable search-engine state threaded through `alphabeta` (the
fields of `SearchEngine` it reads or writes; the iterative-deepening driver
fields `max_depth`, `pv` and the timer are not part of any claim). -/
structure SState where
  nodes_searched : Nat
  best_move : Option Move
  stop_search : Bool
  tt : TranspositionTable
  zobrist : ZobristHash
  killer_moves : Nat → Option Move × Option Move
  history : Nat → Nat → Int
  use_tt : Bool
  use_null_move : Bool
  use_lmr : Bool
  tt_cutoffs : Nat
  null_move_cutoffs : Nat
  futility_prunes : Nat

/-- `SearchEngine::has_big_pieces`. -/
def has_big_pieces (b : Board) : Bool :=
  let color := if b.white_to_move then WHITE else BLACK
  (List.range 64).any fun sq =>
    let piece := b.squares sq
    decide (piece ≠ EMPTY ∧ get_piece_color piece = color ∧
      (get_piece_type piece = KNIGHT ∨ get_piece_type piece = BISHOP ∨
       get_piece_type piece = ROOK ∨ get_piece_type piece = QUEEN))

/-- Stable descending insertion on scored moves (models Rust's stable
`sort_by(|a, b| b.1.cmp(&a.1))`). -/
def insert_desc (x : Move × Int) : List (Move × Int) → List (Move × Int)
  | [] => [x]
  | y :: ys => if y.2 ≥ x.2 then y :: insert_desc x ys else x :: y :: ys

def sort_desc_by_score (l : List (Move × Int)) : List (Move × Int) :=
  l.foldl (fun acc x => insert_desc x acc) []

/-- Stable ascending insertion by a key (models Rust's stable
`sort_by_key`). -/
def insert_asc_by (key : Move → Int) (x : Move) : List Move → List Move
  | [] => [x]
  | y :: ys => if key y ≤ key x then y :: insert_asc_by key x ys else x :: y :: ys

def sort_asc_by (key : Move → Int) (l : List Move) : List Move :=
  l.foldl (fun acc x => insert_asc_by key x acc) []

/-- `SearchEngine::order_moves`. -/
def order_moves (s : SState) (b : Board) (moves : List Move) (tt_move : Option Move)
    (ply : Nat) : List Move :=
  let scored := moves.map fun m =>
    let score : Int := if some m = tt_move then 10000000 else 0
    let victim := b.squares m.to_sq
    let score :=
      if victim ≠ EMPTY then
        let victim_value := piece_value (get_piece_type victim)
        let attacker := b.squares m.from_sq
        let attacker_value := piece_value (get_piece_type attacker)
        score + 1000000 + 10 * victim_value - attacker_value
      else score
    let score := if m.promotion ≠ 0 then score + 900000 + piece_value m.promotion else score
    let score :=
      if ply < MAX_DEPTH then
        if some m = (s.killer_moves ply).1 then score + 800000
        else if some m = (s.killer_moves ply).2 then score + 700000
        else score
      else score
    let piece := b.squares m.from_sq
    let score := if piece < 32 then score + s.history piece m.to_sq else score
    (m, score)
  (sort_desc_by_score scored).map fun x => x.1

/-- Accumulator of the capture loop in `SearchEngine::quiescence`:
`done` records an early `return beta`, `broke` a `break` on the stop flag. -/
structure QLoop where
  alpha : Int
  s : SState
  b : Board
  done : Option Int
  broke : Bool

/-- `SearchEngine::quiescence`.  The source's recursion is bounded only by
capture exhaustion; the explicit fuel dominates any actual recursion depth
and the fuel-out branch is never taken in bounded runs. -/
def quiescence (hF : HashFn) : Nat → SState → Board → Int → Int → Int × SState × Board
  | 0, s, b, alpha, _ => (alpha, s, b)
  | fuel + 1, s, b, alpha, beta =>
    let s1 := { s with nodes_searched := s.nodes_searched + 1 }
    let stand_pat := evaluate b
    if stand_pat ≥ beta then (beta, s1, b)
    else
      let alpha1 := if stand_pat > alpha then stand_pat else alpha
      let moves := generate_legal_moves hF b
      let captures := moves.filter fun m =>
        decide (b.squares m.to_sq ≠ EMPTY ∨ m.is_en_passant = true ∨ m.promotion ≠ 0)
      let captures := sort_asc_by (fun m => -(evaluate_move b m)) captures
      let final :=
        captures.foldl
          (fun (st : QLoop) mv =>
            if st.done.isSome ∨ st.broke then st
            else if st.s.stop_search then { st with broke := true }
            else
              let mk := make_move hF st.b mv
              let r := quiescence hF fuel st.s mk.1 (-beta) (-st.alpha)
              let score := -r.1
              let bAfter := unmake_move r.2.2 mv mk.2
              if score ≥ beta then { st with s := r.2.1, b := bAfter, done := some beta }
              else if score > st.alpha then { st with alpha := score, s := r.2.1, b := bAfter }
              else { st with s := r.2.1, b := bAfter })
          { alpha := alpha1, s := s1, b := b, done := none, broke := false }
      match final.done with
      | some v => (v, final.s, final.b)
      | none => (final.alpha, final.s, final.b)

/-- Accumulator of the move loop in `SearchEngine::alphabeta`. -/
structure ABLoop where
  alpha : Int
  best_score : Int
  best_move_at_node : Option Move
  moves_searched : Nat
  s : SState
  b : Board
  broke : Bool

/-- `SearchEngine::alphabeta`.  The `&mut Board` of the source is threaded
as an explicit component of the result.  Recursion depth in the source is
bounded by repetition detection (history growth); the explicit fuel
dominates any actual recursion depth, and every property proved below holds
for an arbitrary fuel of successor shape. -/
def alphabeta (hF : HashFn) :
    Nat → SState → Board → Int → Int → Int → Nat → Bool → Nat → Bool →
      Int × SState × Board
  | 0, s, b, _, _, _, _, _, _, _ => (0, s, b)
  | fuel + 1, s, b, depth, alpha, beta, ply, is_root, position_hash, allow_null =>
    if s.stop_search then (0, s, b)
    else
      let s1 := { s with nodes_searched := s.nodes_searched + 1 }
      let original_alpha := alpha
      -- draw detection (non-root)
      let drawval : Option Int :=
        if ¬ is_root then
          if is_fifty_moves b = true ∨ is_repetition b = true then some (-CONTEMPT)
          else if has_insufficient_material b = true then some (-CONTEMPT)
          else if repetition_count b ≥ 2 then some (-CONTEMPT * 2)
          else none
        else none
      match drawval with
      | some v => (v, s1, b)
      | none =>
        -- probe TT
        let probed : Option TTEntry × SState :=
          if s1.use_tt then
            let pr := tt_probe s1.tt position_hash
            (pr.1, { s1 with tt := pr.2 })
          else (none, s1)
        let tt_move : Option Move :=
          match probed.1 with
          | some e => e.best_move
          | none => none
        let s2 := probed.2
        let ttcut : Option Int :=
          match probed.1 with
          | some entry =>
            if ¬ is_root ∧ entry.depth ≥ depth then
              if entry.flag = TT_EXACT then some entry.score
              else if entry.flag = TT_ALPHA ∧ entry.score ≤ alpha then some alpha
              else if entry.flag = TT_BETA ∧ entry.score ≥ beta then some beta
              else none
            else none
          | none => none
        match ttcut with
        | some v => (v, { s2 with tt_cutoffs := s2.tt_cutoffs + 1 }, b)
        | none =>
          -- check detection and check extension
          let in_check := is_in_check b
          let extended_depth := if in_check then depth + CHECK_EXTENSION else depth
          -- generate legal moves; checkmate / stalemate
          let moves := generate_legal_moves hF b
          if moves.isEmpty then
            ((if in_check then -MATE_SCORE + (ply : Int) else 0), s2, b)
          else
            -- quiescence at leaf
            if extended_depth ≤ 0 then quiescence hF fuel s2 b alpha beta
            else
              -- static evaluation for pruning
              let static_eval : Option Int :=
                if extended_depth ≤ 4 ∧ ¬ in_check = true ∧ |alpha| < MATE_SCORE - 100 then
                  some (evaluate b)
                else none
              -- null move pruning
              let afterNull : Option Int × SState × Board :=
                if s2.use_null_move = true ∧ allow_null = true ∧ ¬ is_root = true ∧
                   ¬ in_check = true ∧ extended_depth ≥ 3 ∧ has_big_pieces b = true then
                  let bflip := { b with white_to_move := ! b.white_to_move }
                  let null_hash := position_hash ^^^ s2.zobrist.side_key
                  let r := alphabeta hF fuel s2 bflip
                    (extended_depth - 1 - NULL_MOVE_REDUCTION) (-beta) (-beta + 1)
                    (ply + 1) false null_hash false
                  let null_score := -r.1
                  let bRest := { r.2.2 with white_to_move := ! r.2.2.white_to_move }
                  if null_score ≥ beta then
                    (some beta,
                     { r.2.1 with null_move_cutoffs := r.2.1.null_move_cutoffs + 1 }, bRest)
                  else (none, r.2.1, bRest)
                else (none, s2, b)
              match afterNull.1 with
              | some v => (v, afterNull.2.1, afterNull.2.2)
              | none =>
                let s3 := afterNull.2.1
                let b3 := afterNull.2.2
                -- order moves and iterate
                let ordered_moves := order_moves s3 b3 moves tt_move ply
                let final :=
                  ordered_moves.foldl
                    (fun (st : ABLoop) mv =>
                      if st.broke then st
                      else if st.s.stop_search then { st with broke := true }
                      else
                        let is_capture := st.b.squares mv.to_sq ≠ EMPTY ∨ mv.is_en_passant = true
                        let is_quiet := ¬ is_capture ∧ mv.promotion = 0
                        -- futility pruning
                        let futile :=
                          match static_eval with
                          | some se =>
                            decide (st.moves_searched > 0 ∧ extended_depth ≤ 3 ∧
                              ¬ in_check = true ∧ is_quiet ∧
                              se + FUTILITY_MARGIN.getD extended_depth.toNat 0 ≤ st.alpha)
                          | none => false
                        if futile then
                          { st with
                            s := { st.s with futility_prunes := st.s.futility_prunes + 1 }
                            moves_searched := st.moves_searched + 1 }
                        else
                          -- make move, compute new hash
                          let mk := make_move hF st.b mv
                          let undo := mk.2
                          let new_hash := hash_position st.s.zobrist mk.1
                          -- LMR / PVS / full-window first move
                          let r : Int × SState × Board :=
                            if st.s.use_lmr = true ∧ st.moves_searched ≥ LMR_FULL_DEPTH_MOVES ∧
                               extended_depth ≥ LMR_REDUCTION_LIMIT ∧ is_quiet ∧
                               ¬ in_check = true then
                              let reduction : Int := 1 + ((st.moves_searched : Int) / 6)
                              let reduced_depth := max (extended_depth - 1 - reduction) 1
                              let r1 := alphabeta hF fuel st.s mk.1 reduced_depth
                                (-st.alpha - 1) (-st.alpha) (ply + 1) false new_hash true
                              let score1 := -r1.1
                              if score1 > st.alpha then
                                let r2 := alphabeta hF fuel r1.2.1 r1.2.2 (extended_depth - 1)
                                  (-beta) (-st.alpha) (ply + 1) false new_hash true
                                (-r2.1, r2.2)
                              else (score1, r1.2)
                            else if st.moves_searched > 0 then
                              let r1 := alphabeta hF fuel st.s mk.1 (extended_depth - 1)
                                (-st.alpha - 1) (-st.alpha) (ply + 1) false new_hash true
                              let score1 := -r1.1
                              if score1 > st.alpha ∧ score1 < beta then
                                let r2 := alphabeta hF fuel r1.2.1 r1.2.2 (extended_depth - 1)
                                  (-beta) (-st.alpha) (ply + 1) false new_hash true
                                (-r2.1, r2.2)
                              else (score1, r1.2)
                            else
                              let r1 := alphabeta hF fuel st.s mk.1 (extended_depth - 1)
                                (-beta) (-st.alpha) (ply + 1) false new_hash true
                              (-r1.1, r1.2)
                          let score := r.1
                          let sR := r.2.1
                          -- unmake move
                          let bAfter := unmake_move r.2.2 mv undo
                          let upd_best := score > st.best_score
                          let best_score2 := if upd_best then score else st.best_score
                          let bmn2 := if upd_best then some mv else st.best_move_at_node
                          let s4 :=
                            if upd_best ∧ is_root = true then { sR with best_move := some mv }
                            else sR
                          let alpha2 := if score > st.alpha then score else st.alpha
                          if alpha2 ≥ beta then
                            -- beta cutoff: store killer move and history bonus
                            let s5 :=
                              if is_quiet ∧ ply < MAX_DEPTH then
                                let k := s4.killer_moves ply
                                { s4 with
                                  killer_moves := fun p =>
                                    if p = ply then (some mv, k.1) else s4.killer_moves p
                                  history := fun pc t =>
                                    if pc = undo.moved_piece ∧ t = mv.to_sq then
                                      s4.history pc t + extended_depth * extended_depth
                                    else s4.history pc t }
                              else s4
                            { st with alpha := alpha2, best_score := best_score2,
                                      best_move_at_node := bmn2, s := s5, b := bAfter,
                                      broke := true }
                          else
                            { st with alpha := alpha2, best_score := best_score2,
                                      best_move_at_node := bmn2, s := s4, b := bAfter,
                                      moves_searched := st.moves_searched + 1 })
                    { alpha := alpha, best_score := -INFINITY, best_move_at_node := none,
                      moves_searched := 0, s := s3, b := b3, broke := false }
                -- store in TT
                let sF :=
                  if final.s.use_tt = true ∧ ¬ final.s.stop_search = true then
                    let flag :=
                      if final.best_score ≤ original_alpha then TT_ALPHA
                      else if final.best_score ≥ beta then TT_BETA
                      else TT_EXACT
                    { final.s with
                      tt := tt_store final.s.tt position_hash extended_depth final.best_score
                        flag final.best_move_at_node }
                  else final.s
                (final.best_score, sF, final.b)

/-! ## uci.rs: the position command -/

/-- `UCIProtocol::parse_move` (reads `self.board`, here passed explicitly).
The source slices the first four bytes of the move text; inputs are ASCII
in the UCI protocol, so character indexing coincides. -/
def parse_move (hF : HashFn) (b : Board) (move_str : String) : Option Move :=
  let cs := move_str.toList
  if cs.length < 4 then none
  else
    match parse_square (cs.take 2), parse_square ((cs.drop 2).take 2) with
    | some from_sq, some to_sq =>
      let promotion :=
        if cs.length = 5 then
          match cs.getD 4 ' ' with
          | 'q' => QUEEN | 'Q' => QUEEN
          | 'r' => ROOK | 'R' => ROOK
          | 'b' => BISHOP | 'B' => BISHOP
          | 'n' => KNIGHT | 'N' => KNIGHT
          | _ => 0
        else 0
      let legal_moves := generate_legal_moves hF b
      -- find matching legal move (promotion-aware), else any from/to match
      match legal_moves.find? (fun mv =>
          decide (mv.from_sq = from_sq ∧ mv.to_sq = to_sq ∧
            (if promotion ≠ 0 then mv.promotion = promotion else mv.promotion = 0))) with
      | some mv => some mv
      | none =>
        legal_moves.find? fun mv => decide (mv.from_sq = from_sq ∧ mv.to_sq = to_sq)
    | _, _ => none

/-- The `moves` loop at the end of `UCIProtocol::cmd_position`: each move
text that parses as a legal move is applied; a failing one is skipped and
the loop continues. -/
def apply_move_texts (hF : HashFn) (b : Board) (move_strs : List String) : Board :=
  move_strs.foldl
    (fun bd move_str =>
      match parse_move hF bd move_str with
      | some mv => (make_move hF bd mv).1
      | none => bd)
    b

/-- `UCIProtocol::cmd_position`, as a function from the prior `self.board`
and the argument tokens to the resulting `self.board`. -/
def cmd_position (hF : HashFn) (board : Board) (args : List String) : Board :=
  if args.isEmpty then board
  else
    let startpos := args.getD 0 "" = "startpos"
    let board1 :=
      if startpos then Board.new hF
      else if args.getD 0 "" = "fen" then
        let fen_parts := (args.drop 1).takeWhile fun a => a ≠ "moves"
        if ¬ fen_parts.isEmpty then
          match from_fen hF (String.intercalate " " fen_parts) with
          | some b => b
          | none => board
        else board
      else board
    let moves_index : Option Nat :=
      if startpos then
        (if args.length > 1 ∧ args.getD 1 "" = "moves" then some 2 else none)
      else if args.getD 0 "" = "fen" then
        let fen_parts := (args.drop 1).takeWhile fun a => a ≠ "moves"
        let i := 1 + fen_parts.length
        (if i < args.length ∧ args.getD i "" = "moves" then some (i + 1) else none)
      else none
    match moves_index with
    | some idx => apply_move_texts hF board1 (args.drop idx)
    | none => board1

/-! ## Spec-side definitions

The definitions in this section are written from the specification's words
(not from the source) for comparison with the embedded code: the board
invariants of spec §3 used to state the make/unmake round trip, and the
insufficient-material characterization of spec §4.B. -/

/-- Spec §3 invariant on `castling_rights`: "a right is set only if the
corresponding king and rook still stand on their original squares". -/
def castlingInvariant (b : Board) : Prop :=
  (b.castling_rights &&& CASTLE_WK ≠ 0 → b.squares 4 = WHITE_KING ∧ b.squares 7 = WHITE_ROOK) ∧
  (b.castling_rights &&& CASTLE_WQ ≠ 0 → b.squares 4 = WHITE_KING ∧ b.squares 0 = WHITE_ROOK) ∧
  (b.castling_rights &&& CASTLE_BK ≠ 0 → b.squares 60 = BLACK_KING ∧ b.squares 63 = BLACK_ROOK) ∧
  (b.castling_rights &&& CASTLE_BQ ≠ 0 → b.squares 60 = BLACK_KING ∧ b.squares 56 = BLACK_ROOK)

/-- Spec §3 invariant on `en_passant_target`: non-none only immediately
after a double pawn push, i.e. the target is the empty square the pushing
pawn of the side that just moved crossed, with that pawn standing behind
it. -/
def enPassantInvariant (b : Board) : Prop :=
  b.en_passant_square = -1 ∨
  (b.white_to_move = true ∧ ∃ e : Nat, b.en_passant_square = (e : Int) ∧
    40 ≤ e ∧ e ≤ 47 ∧ b.squares e = EMPTY ∧ b.squares (e - 8) = BLACK_PAWN) ∨
  (b.white_to_move = false ∧ ∃ e : Nat, b.en_passant_square = (e : Int) ∧
    16 ≤ e ∧ e ≤ 23 ∧ b.squares e = EMPTY ∧ b.squares (e + 8) = WHITE_PAWN)

/-- Number of squares holding exactly the piece code `code`. -/
def countCode (b : Board) (code : Nat) : Nat :=
  ((List.range 64).filter fun sq => decide (b.squares sq = code)).length

/-- Color (light/dark) of a square, as computed in the source. -/
def sqColor (sq : Nat) : Nat := (sq / 8 + sq % 8) % 2

/-- The twelve valid piece codes. -/
def validPieceCodes : List Nat :=
  [WHITE_PAWN, WHITE_KNIGHT, WHITE_BISHOP, WHITE_ROOK, WHITE_QUEEN, WHITE_KING,
   BLACK_PAWN, BLACK_KNIGHT, BLACK_BISHOP, BLACK_ROOK, BLACK_QUEEN, BLACK_KING]

/-- The insufficient-material characterization in the claim's words: the
material is king versus king; or king plus one minor piece (knight or
bishop) versus king; or king plus bishop versus king plus bishop with both
bishops standing on same-colored squares.  (Stated for boards carrying one
king per side; the non-king material is described by piece counts.) -/
def insufficientMaterialSpec (b : Board) : Prop :=
  let wP := countCode b WHITE_PAWN
  let bP := countCode b BLACK_PAWN
  let wN := countCode b WHITE_KNIGHT
  let bN := countCode b BLACK_KNIGHT
  let wB := countCode b WHITE_BISHOP
  let bB := countCode b BLACK_BISHOP
  let wR := countCode b WHITE_ROOK
  let bR := countCode b BLACK_ROOK
  let wQ := countCode b WHITE_QUEEN
  let bQ := countCode b BLACK_QUEEN
  -- king versus king
  (wP = 0 ∧ bP = 0 ∧ wN = 0 ∧ bN = 0 ∧ wB = 0 ∧ bB = 0 ∧ wR = 0 ∧ bR = 0 ∧ wQ = 0 ∧ bQ = 0) ∨
  -- king plus one minor piece versus king
  (wP = 0 ∧ bP = 0 ∧ wR = 0 ∧ bR = 0 ∧ wQ = 0 ∧ bQ = 0 ∧ wN + bN + wB + bB = 1) ∨
  -- king plus bishop versus king plus bishop, bishops on same-colored squares
  (wP = 0 ∧ bP = 0 ∧ wN = 0 ∧ bN = 0 ∧ wR = 0 ∧ bR = 0 ∧ wQ = 0 ∧ bQ = 0 ∧
    wB = 1 ∧ bB = 1 ∧
    (∀ s < 64, ∀ t < 64, b.squares s = WHITE_BISHOP → b.squares t = BLACK_BISHOP →
      sqColor s = sqColor t))

/-! ## Shared concrete objects used by witnesses and counterexamples -/

/-- A concrete instance of the abstract `DefaultHasher` parameter. -/
def hF0 : HashFn := fun _ _ _ _ => 0

/-- A concrete instance of the abstract Zobrist key stream. -/
def stream0 : Nat → Nat := fun n => n + 7

/-- An empty transposition table. -/
def ttEmpty : TranspositionTable :=
  { table := fun _ => none, mask := 1023, hits := 0, writes := 0 }

/-- A concrete search state: fresh engine, all heuristics on, not stopped. -/
def sBase : SState :=
  { nodes_searched := 0
    best_move := none
    stop_search := false
    tt := ttEmpty
    zobrist := ZobristHash.new stream0
    killer_moves := fun _ => (none, none)
    history := fun _ _ => 0
    use_tt := true
    use_null_move := true
    use_lmr := true
    tt_cutoffs := 0
    null_move_cutoffs := 0
    futility_prunes := 0 }

/-- A stalemate position: black king a8, white queen c7, white king b6,
black to move. -/
def bStalemate : Board := (from_fen hF0 "k7/2Q5/1K6/8/8/8/8/8 b - - 0 1").getD (Board.new hF0)

/-- A fifty-move-rule position: bare kings, halfmove clock 100. -/
def bFifty : Board := (from_fen hF0 "4k3/8/8/8/8/8/8/4K3 w - - 100 12").getD (Board.new hF0)

/-! ## Bitwise helper lemmas (castling-rights monotonicity) -/

theorem and_mask_sub {r m base : Nat} (h : r &&& base = r) : (r &&& m) &&& base = r &&& m := by
  calc (r &&& m) &&& base = r &&& (m &&& base) := Nat.and_assoc r m base
    _ = r &&& (base &&& m) := by rw [Nat.and_comm m base]
    _ = (r &&& base) &&& m := (Nat.and_assoc r base m).symm
    _ = r &&& m := by rw [h]

theorem and_sub_trans {x y z : Nat} (h1 : x &&& y = x) (h2 : y &&& z = y) : x &&& z = x := by
  conv_lhs => rw [← h1]
  rw [Nat.and_assoc, h2, h1]

/-- One `make_move` only masks bits out of `castling_rights`. -/
theorem make_move_castling_rights_sub (hF : HashFn) (b : Board) (mv : Move) :
    ((make_move hF b mv).1).castling_rights &&& b.castling_rights
      = ((make_move hF b mv).1).castling_rights := by
  show (let r := ((make_move hF b mv).1).castling_rights; r &&& b.castling_rights = r)
  simp only [make_move]
  split_ifs <;>
    (repeat first
      | exact Nat.and_self _
      | apply and_mask_sub)

/-- Board after a list of made moves (the "sequence of made moves within a
game" of the claim). -/
def make_moves (hF : HashFn) (b : Board) (mvs : List Move) : Board :=
  mvs.foldl (fun bd mv => (make_move hF bd mv).1) b

/-- C8: for every board state and every move applied with `make_move`,
every bit set in `castling_rights` after the move was already set before
the move, and hence across any sequence of made moves the rights only
shrink: a right once cleared is never re-enabled.  Stated as the bitwise
absorption `after &&& before = after`, for a single move and for an
arbitrary sequence. -/
theorem castling_rights_monotone (hF : HashFn) (b : Board) (mv : Move) (mvs : List Move) :
    (((make_move hF b mv).1).castling_rights &&& b.castling_rights
       = ((make_move hF b mv).1).castling_rights) ∧
    ((make_moves hF b mvs).castling_rights &&& b.castling_rights
       = (make_moves hF b mvs).castling_rights) := by
  refine ⟨make_move_castling_rights_sub hF b mv, ?_⟩
  induction mvs generalizing b with
  | nil => exact Nat.and_self _
  | cons m t ih =>
    have h1 := make_move_castling_rights_sub hF b m
    have h2 := ih (make_move hF b m).1
    simpa [make_moves] using and_sub_trans h2 h1

/-- C9: flipping only the side-to-move flag negates the static evaluation:
all evaluation components are functions of the squares alone and the side
flag enters only through the final negation. -/
theorem evaluate_side_to_move_flip (b : Board) :
    evaluate { b with white_to_move := ! b.white_to_move } = - evaluate b := by
  cases hw : b.white_to_move <;> simp [evaluate, hw]

/-- The incumbent entry used by the C2 counterexample: stored with hash
key 5 at depth 9. -/
def sharedIncumbent : SharedTTEntry :=
  { hash_key := 5, depth := 9, score := 123, flag := 0, best_move := none }

/-- A one-slot shared transposition table (mask 0) whose only index is
occupied by `sharedIncumbent`. -/
def sharedTT0 : SharedTranspositionTable :=
  { table := fun i => if i = 0 then some sharedIncumbent else none
    mask := 0, hits := 0, writes := 0 }

/-- C2 counterexample: storing hash key 6 at depth 3 over the incumbent
(hash key 5, depth 9).  The incumbent's hash key differs from the new
entry's, so the claim's condition demands replacement — but the store keeps
the incumbent unchanged, because the code's condition is
`depth >= existing.depth || hash_key == existing.hash_key`. -/
theorem shared_tt_store_keeps_on_hash_mismatch :
    sharedIncumbent.depth > 3 ∧ sharedIncumbent.hash_key ≠ 6 ∧
    (shared_tt_store sharedTT0 6 3 77 TT_EXACT none).table 0 = some sharedIncumbent := by
  refine ⟨by decide, by decide, ?_⟩
  decide

/-- C2 (amended): at an occupied index, the incumbent is replaced if and
only if the new entry's depth is at least the incumbent's depth or the two
hash keys are equal; otherwise the incumbent is kept unchanged.  Stated
for both `SharedTranspositionTable::store` and `TranspositionTable::store`,
whose replacement policies are identical. -/
theorem tt_store_replacement_policy :
    (∀ (tt : SharedTranspositionTable) (hash_key : Nat) (depth score : Int) (flag : Nat)
        (best_move : Option Move) (existing : SharedTTEntry),
      tt.table (hash_key &&& tt.mask) = some existing →
      (shared_tt_store tt hash_key depth score flag best_move).table (hash_key &&& tt.mask)
        = if depth ≥ existing.depth ∨ hash_key = existing.hash_key
          then some ⟨hash_key, depth, score, flag, best_move⟩
          else some existing) ∧
    (∀ (tt : TranspositionTable) (hash_key : Nat) (depth score : Int) (flag : Nat)
        (best_move : Option Move) (existing : TTEntry),
      tt.table (hash_key &&& tt.mask) = some existing →
      (tt_store tt hash_key depth score flag best_move).table (hash_key &&& tt.mask)
        = if depth ≥ existing.depth ∨ hash_key = existing.hash_key
          then some ⟨hash_key, depth, score, flag, best_move⟩
          else some existing) := by
  constructor
  · intro tt hash_key depth score flag best_move existing h
    by_cases hc : depth ≥ existing.depth ∨ hash_key = existing.hash_key
    · simp [shared_tt_store, h, hc]
    · simp [shared_tt_store, h, hc]
  · intro tt hash_key depth score flag best_move existing h
    by_cases hc : depth ≥ existing.depth ∨ hash_key = existing.hash_key
    · simp [tt_store, h, hc]
    · simp [tt_store, h, hc]

/-- Witness for the amended C2 theorem: a deeper store over `sharedTT0`
(condition holds, entry replaced). -/
theorem tt_store_replacement_policy_witness :
    (shared_tt_store sharedTT0 6 20 77 TT_EXACT none).table (6 &&& sharedTT0.mask)
      = some ⟨6, 20, 77, TT_EXACT, none⟩ := by
  rw [tt_store_replacement_policy.1 sharedTT0 6 20 77 TT_EXACT none sharedIncumbent (by decide)]
  decide

/-- C5 counterexample: the malformed position text "xyz" (a single field,
no valid placement, no side/castling/clock fields) is accepted by
`Board::from_fen` — it parses to a board with no white king rather than
being rejected with `None`. -/
theorem from_fen_accepts_malformed :
    ((from_fen hF0 "xyz").map fun b => find_king b true) = some none := by
  decide

/-- C5 (amended): `Board::from_fen` returns `None` exactly when the text
contains no whitespace-separated fields at all; every other text (however
malformed) is accepted with lenient field parsing.  (`cmd_position`
replaces the prior position only under `if let Some(board)`, so the prior
position survives any rejected text.) -/
theorem from_fen_none_iff (hF : HashFn) (fen : String) :
    from_fen hF fen = none ↔ split_whitespace fen = [] := by
  unfold from_fen
  by_cases h : (split_whitespace fen).isEmpty
  · simp [h, List.isEmpty_iff.mp h]
  · have : ¬ split_whitespace fen = [] := by
      simpa [List.isEmpty_iff] using h
    simp [h, this]

/-- C4 counterexample: `position startpos moves e2e4 e2e4 e7e5`.  The
second "e2e4" is illegal (third conjunct), yet the subsequent "e7e5" is
still applied — e7 (square 52) ends empty and e5 (square 36) holds the
black pawn — contradicting the claim that the illegal move and all
subsequent moves are skipped (which would leave the black pawn on e7, as
the second conjunct shows for the prefix list). -/
theorem cmd_position_continues_after_illegal :
    (cmd_position hF0 (Board.new hF0) ["startpos", "moves", "e2e4", "e2e4", "e7e5"]).squares 52
        = EMPTY ∧
    (cmd_position hF0 (Board.new hF0) ["startpos", "moves", "e2e4", "e2e4", "e7e5"]).squares 36
        = BLACK_PAWN ∧
    (cmd_position hF0 (Board.new hF0) ["startpos", "moves", "e2e4"]).squares 52 = BLACK_PAWN ∧
    parse_move hF0 (cmd_position hF0 (Board.new hF0) ["startpos", "moves", "e2e4"]) "e2e4"
        = none := by
  refine ⟨by decide, by decide, by decide, by decide⟩

/-- C4 (amended): a move text that does not parse as a legal move is
skipped by itself — processing continues with the remaining move texts on
the unchanged board — and a move text that does parse is applied, with
processing continuing on the updated board.  Processing never aborts. -/
theorem apply_move_texts_step (hF : HashFn) (b : Board) (s : String) (rest : List String) :
    (parse_move hF b s = none →
      apply_move_texts hF b (s :: rest) = apply_move_texts hF b rest) ∧
    (∀ mv, parse_move hF b s = some mv →
      apply_move_texts hF b (s :: rest) = apply_move_texts hF (make_move hF b mv).1 rest) := by
  constructor
  · intro h
    simp [apply_move_texts, h]
  · intro mv h
    simp [apply_move_texts, h]

/-- Witness for the amended C4 theorem at the counterexample's position:
after `e2e4` the text "e2e4" fails to parse and is skipped by itself. -/
theorem apply_move_texts_step_witness :
    apply_move_texts hF0 (cmd_position hF0 (Board.new hF0) ["startpos", "moves", "e2e4"])
        ["e2e4", "e7e5"]
      = apply_move_texts hF0 (cmd_position hF0 (Board.new hF0) ["startpos", "moves", "e2e4"])
          ["e7e5"] :=
  (apply_move_texts_step hF0 _ "e2e4" ["e7e5"]).1 (by decide)

/-- Fold congruence under pointwise agreement on members. -/
theorem foldl_congr_of_mem {α : Type} {l : List α} {f g : Nat → α → Nat} (i : Nat)
    (h : ∀ a ∈ l, ∀ acc, f acc a = g acc a) : l.foldl f i = l.foldl g i := by
  induction l generalizing i with
  | nil => rfl
  | cons a t ih =>
    simp only [List.foldl_cons]
    rw [h a (by simp)]
    exact ih _ fun x hx acc => h x (by simp [hx]) acc

/-- C10: Zobrist determinism.  Each parallel worker builds its own
`ZobristHash` by `ZobristHash::new()`, which reads the deterministic stream
of the fixed-seed generator; so any two workers hold identical key tables,
and `hash_position` applied to board states that agree on the hashed fields
(squares 0..63, side to move, castling rights, en-passant square) yields
the same key. -/
theorem zobrist_worker_hash_agreement (stream : Nat → Nat) (b1 b2 : Board)
    (hsq : ∀ sq < 64, b1.squares sq = b2.squares sq)
    (hstm : b1.white_to_move = b2.white_to_move)
    (hcr : b1.castling_rights = b2.castling_rights)
    (hep : b1.en_passant_square = b2.en_passant_square) :
    hash_position (ZobristHash.new stream) b1 = hash_position (ZobristHash.new stream) b2 := by
  unfold hash_position
  rw [hstm, hcr, hep]
  have : (List.range 64).foldl
      (fun h sq => if b1.squares sq ≠ EMPTY then h ^^^ (ZobristHash.new stream).piece_keys (b1.squares sq) sq else h) 0
    = (List.range 64).foldl
      (fun h sq => if b2.squares sq ≠ EMPTY then h ^^^ (ZobristHash.new stream).piece_keys (b2.squares sq) sq else h) 0 := by
    apply foldl_congr_of_mem
    intro sq hsq' acc
    rw [hsq sq (List.mem_range.mp hsq')]
  rw [this]

/-- Witness board for C10 (white king e1, black king e8). -/
def bZob1 : Board := (from_fen hF0 "4k3/8/8/8/8/8/8/4K3 w - - 0 1").getD (Board.new hF0)

/-- Same position as `bZob1` but with different clocks and history — the
fields `hash_position` does not read. -/
def bZob2 : Board :=
  { bZob1 with halfmove_clock := 42, fullmove_number := 99, position_history := [1, 2, 3] }

/-- Witness for C10 at two concrete board states agreeing on the hashed
fields. -/
theorem zobrist_worker_hash_agreement_witness :
    hash_position (ZobristHash.new stream0) bZob1 = hash_position (ZobristHash.new stream0) bZob2 :=
  zobrist_worker_hash_agreement stream0 bZob1 bZob2 (fun _ _ => rfl) rfl rfl rfl

/-- "The current position hash already appears twice earlier in the
position history": the last pushed hash occurs at least twice among the
earlier entries. -/
def hashTwiceEarlier (b : Board) : Bool :=
  match b.position_history.getLast? with
  | some current_hash =>
    decide (((b.position_history.dropLast.filter fun h => h = current_hash).length) ≥ 2)
  | none => false

/-- `repetition_count` counts the last hash over the whole history, which
always includes the final occurrence itself. -/
theorem repetition_count_of_twice_earlier (b : Board) (h : hashTwiceEarlier b = true) :
    repetition_count b ≥ 2 := by
  unfold hashTwiceEarlier at h
  rcases hl : b.position_history.getLast? with _ | current
  · rw [hl] at h
    simp at h
  · rw [hl] at h
    simp only [decide_eq_true_eq] at h
    have hne' : b.position_history ≠ [] := by
      intro hh
      rw [hh] at hl
      simp at hl
    have hsplit : b.position_history = b.position_history.dropLast ++ [current] := by
      conv_lhs => rw [← List.dropLast_append_getLast hne']
      rw [List.getLast?_eq_getLast _ hne'] at hl
      rw [Option.some_inj.mp hl]
    unfold repetition_count
    rw [if_neg (by simp [hne']), hl]
    show (b.position_history.filter fun x => x = current).length ≥ 2
    conv_lhs => rw [hsplit]
    rw [List.filter_append, List.length_append]
    omega

/-- C3: in a non-root `alphabeta` call on a running search, before any move
is searched: a fifty-move, repetition, or insufficient-material position
returns `-CONTEMPT` (−25); and when none of those hold but the current hash
already appears twice earlier in the position history, the call returns
`-CONTEMPT * 2` (−50).  (The two checks run in the source's order: the −50
branch is reached only when the draw conditions of the first branch do not
hold.) -/
theorem alphabeta_nonroot_draw_detection (hF : HashFn) (fuel : Nat) (s : SState) (b : Board)
    (depth alpha beta : Int) (ply : Nat) (position_hash : Nat) (allow_null : Bool)
    (hstop : s.stop_search = false) :
    ((is_fifty_moves b = true ∨ is_repetition b = true ∨ has_insufficient_material b = true) →
      (alphabeta hF (fuel + 1) s b depth alpha beta ply false position_hash allow_null).1
        = -CONTEMPT) ∧
    (¬ (is_fifty_moves b = true ∨ is_repetition b = true ∨ has_insufficient_material b = true) →
      hashTwiceEarlier b = true →
      (alphabeta hF (fuel + 1) s b depth alpha beta ply false position_hash allow_null).1
        = -CONTEMPT * 2) := by
  constructor
  · intro h1
    by_cases hfr : is_fifty_moves b = true ∨ is_repetition b = true
    · simp only [alphabeta, hstop]
      simp [hfr]
    · have hin : has_insufficient_material b = true := by tauto
      have hf : ¬ is_fifty_moves b = true := fun h => hfr (Or.inl h)
      have hr : ¬ is_repetition b = true := fun h => hfr (Or.inr h)
      simp only [alphabeta, hstop]
      simp [hf, hr, hin]
  · intro h1 h2
    have hf : ¬ is_fifty_moves b = true := fun h => h1 (Or.inl h)
    have hr : ¬ is_repetition b = true := fun h => h1 (Or.inr (Or.inl h))
    have hin : ¬ has_insufficient_material b = true := fun h => h1 (Or.inr (Or.inr h))
    have hrc : repetition_count b ≥ 2 := repetition_count_of_twice_earlier b h2
    simp only [alphabeta, hstop]
    simp [hf, hr, hin, hrc]

/-- Witness board for C3's second branch: sufficient material, short
history whose last hash appears twice earlier. -/
def bTwice : Board :=
  { (from_fen hF0 "4k3/8/8/8/8/8/4R3/4K3 b - - 3 2").getD (Board.new hF0) with
    position_history := [9, 9, 9] }

/-- Witness for C3: the fifty-move position returns −25 and the
twice-repeated position returns −50, by the theorem applied at the concrete
inputs. -/
theorem alphabeta_nonroot_draw_detection_witness :
    (alphabeta hF0 1 sBase bFifty 3 (-INFINITY) INFINITY 1 false 99 true).1 = -CONTEMPT ∧
    (alphabeta hF0 1 sBase bTwice 3 (-INFINITY) INFINITY 1 false 99 true).1 = -CONTEMPT * 2 := by
  constructor
  · exact (alphabeta_nonroot_draw_detection hF0 0 sBase bFifty 3 (-INFINITY) INFINITY 1 99 true
      rfl).1 (Or.inl (by decide))
  · exact (alphabeta_nonroot_draw_detection hF0 0 sBase bTwice 3 (-INFINITY) INFINITY 1 99 true
      rfl).2 (by decide) (by decide)

/-- C6: an `alphabeta` call on a running search that reaches the move
generation step (at the root nothing precedes it but the cutoff-free TT
probe; at a non-root node the draw checks must not fire and the TT probe
must miss) returns `-MATE_SCORE + ply` on a position with no legal moves
when the side to move is in check, and 0 (stalemate) otherwise. -/
theorem alphabeta_no_legal_moves (hF : HashFn) (fuel : Nat) (s : SState) (b : Board)
    (depth alpha beta : Int) (ply : Nat) (is_root : Bool) (position_hash : Nat)
    (allow_null : Bool)
    (hstop : s.stop_search = false)
    (hdraw : is_root = true ∨
      (is_fifty_moves b = false ∧ is_repetition b = false ∧
       has_insufficient_material b = false ∧ repetition_count b < 2))
    (htt : is_root = true ∨ s.use_tt = false ∨ (tt_probe s.tt position_hash).1 = none)
    (hmoves : generate_legal_moves hF b = []) :
    (alphabeta hF (fuel + 1) s b depth alpha beta ply is_root position_hash allow_null).1
      = if is_in_check b then -MATE_SCORE + (ply : Int) else 0 := by
  cases hroot : is_root with
  | true =>
    by_cases hu : s.use_tt
    · cases hpr : (tt_probe s.tt position_hash).1 with
      | none =>
        simp only [alphabeta, hstop]
        simp [hu, hpr, hmoves]
      | some e =>
        simp only [alphabeta, hstop]
        simp [hu, hpr, hmoves]
    · simp only [alphabeta, hstop]
      simp [hu, hmoves]
  | false =>
    rcases hdraw with h | ⟨hf, hr, hi, hrc⟩
    · exact absurd (hroot ▸ h) (by simp)
    have hrc' : ¬ repetition_count b ≥ 2 := by omega
    rcases htt with h | htt'
    · exact absurd (hroot ▸ h) (by simp)
    rcases htt' with hu | hpr
    · simp only [alphabeta, hstop]
      simp [hf, hr, hi, hrc', hu, hmoves]
    · by_cases hu : s.use_tt
      · simp only [alphabeta, hstop]
        simp [hf, hr, hi, hrc', hu, hpr, hmoves]
      · simp only [alphabeta, hstop]
        simp [hf, hr, hi, hrc', hu, hmoves]

/-- Witness for C6 at the concrete stalemate position (non-root, fresh
search state, empty transposition table): the call returns 0. -/
theorem alphabeta_no_legal_moves_witness :
    (alphabeta hF0 1 sBase bStalemate 3 (-INFINITY) INFINITY 2 false 99 true).1 = 0 := by
  have h := alphabeta_no_legal_moves hF0 0 sBase bStalemate 3 (-INFINITY) INFINITY 2 false 99 true
    rfl (Or.inr (by refine ⟨by decide, by decide, by decide, by decide⟩)) (Or.inr (Or.inr rfl))
    (by decide)
  rw [h]
  decide

/-! ## C7 helper development: counting pieces -/

/-- Predicate on `piecesList` triples: given type and color. -/
def tcP (t c : Nat) : Nat × Nat × Nat → Bool := fun p => decide (p.1 = t ∧ p.2.1 = c)

/-- Count of pieces of the given type and color on the board. -/
def countTC (b : Board) (t c : Nat) : Nat := (piecesList b).countP (tcP t c)

/-- Validity of each square's content: empty or one of the twelve piece
codes. -/
def boardValid (b : Board) : Prop :=
  ∀ sq < 64, b.squares sq = EMPTY ∨ b.squares sq ∈ validPieceCodes

theorem valid_code_unique :
    ∀ x ∈ validPieceCodes, ∀ c ∈ validPieceCodes,
      get_piece_type x = get_piece_type c → get_piece_color x = get_piece_color c → x = c := by
  decide

theorem mem_piecesList {b : Board} {p : Nat × Nat × Nat} (h : p ∈ piecesList b) :
    ∃ sq, sq < 64 ∧ b.squares sq ≠ EMPTY ∧
      p = (get_piece_type (b.squares sq), get_piece_color (b.squares sq), sq) := by
  unfold piecesList at h
  rw [List.mem_filterMap] at h
  obtain ⟨sq, hsq, hf⟩ := h
  by_cases ho : b.squares sq ≠ EMPTY
  · rw [if_pos ho] at hf
    exact ⟨sq, List.mem_range.mp hsq, ho, (Option.some_inj.mp hf).symm⟩
  · rw [if_neg ho] at hf
    exact absurd hf (by simp)

theorem piecesList_mem_of_sq {b : Board} {sq : Nat} (h64 : sq < 64)
    (ho : b.squares sq ≠ EMPTY) :
    (get_piece_type (b.squares sq), get_piece_color (b.squares sq), sq) ∈ piecesList b := by
  unfold piecesList
  rw [List.mem_filterMap]
  exact ⟨sq, List.mem_range.mpr h64, by rw [if_pos ho]⟩

/-- Each element of `piecesList` carries a valid (type, color) pair. -/
theorem piecesList_valid_pair {b : Board} (hv : boardValid b) {p : Nat × Nat × Nat}
    (h : p ∈ piecesList b) :
    ∃ code ∈ validPieceCodes, p.1 = get_piece_type code ∧ p.2.1 = get_piece_color code := by
  obtain ⟨sq, h64, ho, hp⟩ := mem_piecesList h
  rcases hv sq h64 with he | hc
  · exact absurd he ho
  · exact ⟨b.squares sq, hc, by rw [hp]; exact ⟨rfl, rfl⟩⟩

/-- Bridge: the per-code square count equals the (type, color) count over
the pieces list, for valid codes on valid boards. -/
theorem countCode_eq_countTC {b : Board} (hv : boardValid b) {code : Nat}
    (hc : code ∈ validPieceCodes) :
    countCode b code = countTC b (get_piece_type code) (get_piece_color code) := by
  unfold countCode countTC piecesList
  rw [← List.countP_eq_length_filter, List.countP_filterMap]
  apply List.countP_congr
  intro sq hsq
  have h64 := List.mem_range.mp hsq
  have hcne : code ≠ EMPTY :=
    (show ∀ c ∈ validPieceCodes, c ≠ EMPTY by decide) code hc
  by_cases ho : b.squares sq = EMPTY
  · have hsc : b.squares sq ≠ code := by
      rw [ho]
      exact Ne.symm hcne
    simp [ho, Ne.symm hcne]
  · simp [ho, tcP]
    constructor
    · intro h
      rw [h]
      exact ⟨rfl, rfl⟩
    · intro ht
      rcases hv sq h64 with he | hvc
      · exact absurd he ho
      exact valid_code_unique _ hvc _ hc ht.1 ht.2

/-- Splitting a count along a second predicate. -/
theorem countP_split {α : Type} (l : List α) (p q : α → Bool) :
    l.countP p = l.countP (fun a => p a && q a) + l.countP (fun a => p a && !q a) := by
  rw [List.countP_eq_length_filter p l, List.length_eq_countP_add_countP (p := q),
    List.countP_filter, List.countP_filter]
  congr 1
  · exact List.countP_congr fun x _ => by cases q x <;> cases p x <;> simp
  · exact List.countP_congr fun x _ => by cases q x <;> cases p x <;> simp

/-- Counts of disjoint predicates add. -/
theorem countP_or_disjoint {α : Type} (l : List α) (p q : α → Bool)
    (h : ∀ a ∈ l, ¬(p a = true ∧ q a = true)) :
    l.countP (fun a => p a || q a) = l.countP p + l.countP q := by
  induction l with
  | nil => simp
  | cons x t ih =>
    have hx := h x (by simp)
    have ht : ∀ a ∈ t, ¬(p a = true ∧ q a = true) := fun a ha => h a (by simp [ha])
    rw [List.countP_cons, List.countP_cons, List.countP_cons, ih ht]
    cases hp : p x <;> cases hq : q x <;> simp_all <;> omega

def kingP : Nat × Nat × Nat → Bool := fun p => decide (p.1 = KING)
def notKingP : Nat × Nat × Nat → Bool := fun p => decide (¬ p.1 = KING)
def minorP : Nat × Nat × Nat → Bool := fun p => decide (p.1 = KNIGHT ∨ p.1 = BISHOP)
def bishP : Nat × Nat × Nat → Bool := fun p => decide (p.1 = BISHOP)
def heavyP : Nat × Nat × Nat → Bool :=
  fun p => decide (¬ p.1 = KING ∧ ¬ (p.1 = KNIGHT ∨ p.1 = BISHOP))
def nkbP : Nat × Nat × Nat → Bool := fun p => decide (¬ p.1 = KING ∧ ¬ p.1 = BISHOP)

theorem valid_colors :
    ∀ c ∈ validPieceCodes, get_piece_color c = WHITE ∨ get_piece_color c = BLACK := by
  decide

theorem valid_types :
    ∀ c ∈ validPieceCodes,
      get_piece_type c = PAWN ∨ get_piece_type c = KNIGHT ∨ get_piece_type c = BISHOP ∨
      get_piece_type c = ROOK ∨ get_piece_type c = QUEEN ∨ get_piece_type c = KING := by
  decide

theorem pieces_color_cases {b : Board} (hv : boardValid b) {p : Nat × Nat × Nat}
    (hp : p ∈ piecesList b) : p.2.1 = WHITE ∨ p.2.1 = BLACK := by
  obtain ⟨c, hm, _, hcol⟩ := piecesList_valid_pair hv hp
  rw [hcol]
  exact valid_colors c hm

theorem pieces_type_cases {b : Board} (hv : boardValid b) {p : Nat × Nat × Nat}
    (hp : p ∈ piecesList b) :
    p.1 = PAWN ∨ p.1 = KNIGHT ∨ p.1 = BISHOP ∨ p.1 = ROOK ∨ p.1 = QUEEN ∨ p.1 = KING := by
  obtain ⟨c, hm, ht, _⟩ := piecesList_valid_pair hv hp
  rw [ht]
  exact valid_types c hm

/-- A per-type count over valid boards splits into the two colors. -/
theorem countP_type_split_colors {b : Board} (hv : boardValid b) (t : Nat) :
    (piecesList b).countP (fun p => decide (p.1 = t))
      = countTC b t WHITE + countTC b t BLACK := by
  rw [countP_split (piecesList b) (fun p => decide (p.1 = t))
    (fun p => decide (p.2.1 = WHITE))]
  congr 1
  · apply List.countP_congr
    intro p _
    simp [tcP]
  · apply List.countP_congr
    intro p hp
    rcases pieces_color_cases hv hp with hc | hc <;>
      simp [tcP, hc, show WHITE ≠ BLACK from by decide, show BLACK ≠ WHITE from by decide]

/-- Counts of a non-king type-and-color are bounded by the non-king
count. -/
theorem countTC_le_notKing {b : Board} (t c : Nat) (ht : t ≠ KING) :
    countTC b t c ≤ (piecesList b).countP notKingP := by
  apply List.countP_mono_left
  intro a _ h
  simp only [tcP, decide_eq_true_eq] at h
  simp [notKingP, h.1, ht]

/-- Pieces split into kings and non-kings. -/
theorem length_pieces_split {b : Board} :
    (piecesList b).length
      = (piecesList b).countP kingP + (piecesList b).countP notKingP := by
  rw [List.length_eq_countP_add_countP (p := kingP)]
  congr 1
  apply List.countP_congr
  intro p _
  simp [kingP, notKingP]

/-- On a valid board with one king per side, there are exactly two king
entries. -/
theorem kings_two {b : Board} (hv : boardValid b)
    (hWK : countCode b WHITE_KING = 1) (hBK : countCode b BLACK_KING = 1) :
    (piecesList b).countP kingP = 2 := by
  have h := countP_type_split_colors hv KING
  have e1 : countCode b WHITE_KING = countTC b KING WHITE := by
    rw [countCode_eq_countTC hv (show WHITE_KING ∈ validPieceCodes by decide)]
    norm_num [show get_piece_type WHITE_KING = KING from by decide,
      show get_piece_color WHITE_KING = WHITE from by decide]
  have e2 : countCode b BLACK_KING = countTC b KING BLACK := by
    rw [countCode_eq_countTC hv (show BLACK_KING ∈ validPieceCodes by decide)]
    norm_num [show get_piece_type BLACK_KING = KING from by decide,
      show get_piece_color BLACK_KING = BLACK from by decide]
  show (piecesList b).countP kingP = 2
  calc (piecesList b).countP kingP
      = countTC b KING WHITE + countTC b KING BLACK := h
    _ = 2 := by rw [← e1, ← e2, hWK, hBK]

/-- Non-kings split into minors and heavies-or-pawns. -/
theorem notKing_split_minor {b : Board} :
    (piecesList b).countP notKingP
      = (piecesList b).countP minorP + (piecesList b).countP heavyP := by
  rw [countP_split (piecesList b) notKingP minorP]
  congr 1
  · apply List.countP_congr
    intro p _
    constructor
    · intro h
      simp only [Bool.and_eq_true, notKingP, minorP, decide_eq_true_eq] at h
      simp [minorP, h.2]
    · intro h
      simp only [minorP, decide_eq_true_eq] at h
      have hnk : ¬ p.1 = KING := by
        rcases h with h | h <;> simp [h, KNIGHT, BISHOP, KING]
      simp [notKingP, minorP, hnk, h]
  · apply List.countP_congr
    intro p _
    constructor
    · intro h
      simp only [Bool.and_eq_true, Bool.not_eq_true', notKingP, minorP,
        decide_eq_true_eq, decide_eq_false_iff_not] at h
      simp [heavyP, h.1, h.2]
    · intro h
      simp only [heavyP, decide_eq_true_eq] at h
      simp [notKingP, minorP, h.1, h.2]

/-- Non-kings split into bishops and the rest. -/
theorem notKing_split_bishop {b : Board} :
    (piecesList b).countP notKingP
      = (piecesList b).countP bishP + (piecesList b).countP nkbP := by
  rw [countP_split (piecesList b) notKingP bishP]
  congr 1
  · apply List.countP_congr
    intro p _
    constructor
    · intro h
      simp only [Bool.and_eq_true, notKingP, bishP, decide_eq_true_eq] at h
      simp [bishP, h.2]
    · intro h
      simp only [bishP, decide_eq_true_eq] at h
      have hnk : ¬ p.1 = KING := by simp [h, BISHOP, KING]
      simp only [Bool.and_eq_true, notKingP, bishP, decide_eq_true_eq]
      exact ⟨hnk, by simp [h]⟩
  · apply List.countP_congr
    intro p _
    constructor
    · intro h
      simp only [Bool.and_eq_true, Bool.not_eq_true', notKingP, bishP,
        decide_eq_true_eq, decide_eq_false_iff_not] at h
      simp [nkbP, h.1, h.2]
    · intro h
      simp only [nkbP, decide_eq_true_eq] at h
      simp [notKingP, bishP, h.1, h.2]

/-- Minors split into the four type-color counts. -/
theorem minor_split {b : Board} (hv : boardValid b) :
    (piecesList b).countP minorP
      = countTC b KNIGHT WHITE + countTC b KNIGHT BLACK +
        (countTC b BISHOP WHITE + countTC b BISHOP BLACK) := by
  have hd : (piecesList b).countP
      (fun p => (fun q => decide (q.1 = KNIGHT)) p || (fun q => decide (q.1 = BISHOP)) p)
      = (piecesList b).countP (fun p => decide (p.1 = KNIGHT)) +
        (piecesList b).countP (fun p => decide (p.1 = BISHOP)) := by
    apply countP_or_disjoint
    intro a _ h
    have h1 := of_decide_eq_true h.1
    have h2 := of_decide_eq_true h.2
    rw [h1] at h2
    exact absurd h2 (by decide)
  have hcongr : (piecesList b).countP minorP
      = (piecesList b).countP
          (fun p => (fun q => decide (q.1 = KNIGHT)) p || (fun q => decide (q.1 = BISHOP)) p) := by
    apply List.countP_congr
    intro p _
    simp [minorP]
  rw [hcongr, hd, countP_type_split_colors hv KNIGHT, countP_type_split_colors hv BISHOP]

/-- Bridging a specific code's square count to a (type, color) count. -/
theorem countCode_bridge {b : Board} (hv : boardValid b) (code t c : Nat)
    (hc : code ∈ validPieceCodes) (h1 : get_piece_type code = t)
    (h2 : get_piece_color code = c) : countCode b code = countTC b t c := by
  rw [countCode_eq_countTC hv hc, h1, h2]

theorem countTC_le_heavy {b : Board} (t c : Nat) (h1 : t ≠ KING) (h2 : t ≠ KNIGHT)
    (h3 : t ≠ BISHOP) : countTC b t c ≤ (piecesList b).countP heavyP := by
  apply List.countP_mono_left
  intro a _ h
  simp only [tcP, decide_eq_true_eq] at h
  simp [heavyP, h.1, h1, h2, h3]

theorem countTC_le_nkb {b : Board} (t c : Nat) (h1 : t ≠ KING) (h3 : t ≠ BISHOP) :
    countTC b t c ≤ (piecesList b).countP nkbP := by
  apply List.countP_mono_left
  intro a _ h
  simp only [tcP, decide_eq_true_eq] at h
  simp [nkbP, h.1, h1, h3]

theorem heavy_zero {b : Board} (hv : boardValid b)
    (hPW : countTC b PAWN WHITE = 0) (hPB : countTC b PAWN BLACK = 0)
    (hRW : countTC b ROOK WHITE = 0) (hRB : countTC b ROOK BLACK = 0)
    (hQW : countTC b QUEEN WHITE = 0) (hQB : countTC b QUEEN BLACK = 0) :
    (piecesList b).countP heavyP = 0 := by
  rw [List.countP_eq_zero]
  intro a ha hc
  simp only [heavyP, decide_eq_true_eq] at hc
  have hpos : ∀ t c, a.1 = t → a.2.1 = c → 0 < countTC b t c := by
    intro t c ht hcol
    exact List.countP_pos_iff.mpr ⟨a, ha, by simp [tcP, ht, hcol]⟩
  rcases pieces_type_cases hv ha with ht | ht | ht | ht | ht | ht
  · rcases pieces_color_cases hv ha with hcol | hcol
    · have := hpos PAWN WHITE ht hcol; omega
    · have := hpos PAWN BLACK ht hcol; omega
  · exact hc.2 (Or.inl ht)
  · exact hc.2 (Or.inr ht)
  · rcases pieces_color_cases hv ha with hcol | hcol
    · have := hpos ROOK WHITE ht hcol; omega
    · have := hpos ROOK BLACK ht hcol; omega
  · rcases pieces_color_cases hv ha with hcol | hcol
    · have := hpos QUEEN WHITE ht hcol; omega
    · have := hpos QUEEN BLACK ht hcol; omega
  · exact hc.1 ht

theorem nkb_zero {b : Board} (hv : boardValid b)
    (hPW : countTC b PAWN WHITE = 0) (hPB : countTC b PAWN BLACK = 0)
    (hNW : countTC b KNIGHT WHITE = 0) (hNB : countTC b KNIGHT BLACK = 0)
    (hRW : countTC b ROOK WHITE = 0) (hRB : countTC b ROOK BLACK = 0)
    (hQW : countTC b QUEEN WHITE = 0) (hQB : countTC b QUEEN BLACK = 0) :
    (piecesList b).countP nkbP = 0 := by
  rw [List.countP_eq_zero]
  intro a ha hc
  simp only [nkbP, decide_eq_true_eq] at hc
  have hpos : ∀ t c, a.1 = t → a.2.1 = c → 0 < countTC b t c := by
    intro t c ht hcol
    exact List.countP_pos_iff.mpr ⟨a, ha, by simp [tcP, ht, hcol]⟩
  rcases pieces_type_cases hv ha with ht | ht | ht | ht | ht | ht
  · rcases pieces_color_cases hv ha with hcol | hcol
    · have := hpos PAWN WHITE ht hcol; omega
    · have := hpos PAWN BLACK ht hcol; omega
  · rcases pieces_color_cases hv ha with hcol | hcol
    · have := hpos KNIGHT WHITE ht hcol; omega
    · have := hpos KNIGHT BLACK ht hcol; omega
  · exact hc.2 ht
  · rcases pieces_color_cases hv ha with hcol | hcol
    · have := hpos ROOK WHITE ht hcol; omega
    · have := hpos ROOK BLACK ht hcol; omega
  · rcases pieces_color_cases hv ha with hcol | hcol
    · have := hpos QUEEN WHITE ht hcol; omega
    · have := hpos QUEEN BLACK ht hcol; omega
  · exact hc.1 ht

/-- An element of `piecesList` with the type and color of a valid code
stands on a board square holding exactly that code. -/
theorem pieces_square_code {b : Board} (hv : boardValid b) {p : Nat × Nat × Nat}
    (hp : p ∈ piecesList b) {code : Nat} (hc : code ∈ validPieceCodes)
    (ht : p.1 = get_piece_type code) (hcol : p.2.1 = get_piece_color code) :
    p.2.2 < 64 ∧ b.squares p.2.2 = code := by
  obtain ⟨sq, h64, ho, hpe⟩ := mem_piecesList hp
  rcases hv sq h64 with he | hvc
  · exact absurd he ho
  have hsq : p.2.2 = sq := by rw [hpe]
  have ht' : get_piece_type (b.squares sq) = get_piece_type code := by
    rw [hpe] at ht
    exact ht
  have hcol' : get_piece_color (b.squares sq) = get_piece_color code := by
    rw [hpe] at hcol
    exact hcol
  refine ⟨hsq ▸ h64, ?_⟩
  rw [hsq]
  exact valid_code_unique _ hvc _ hc ht' hcol'

/-- Bishop counts can be taken over the filtered bishop sublist. -/
theorem countTC_bishop_filter {b : Board} (c : Nat) :
    countTC b BISHOP c = ((piecesList b).filter bishP).countP (tcP BISHOP c) := by
  rw [List.countP_filter]
  apply List.countP_congr
  intro p _
  constructor
  · intro h
    simp only [tcP, decide_eq_true_eq] at h
    simp [tcP, bishP, h.1, h.2]
  · intro h
    simp only [Bool.and_eq_true, tcP, bishP, decide_eq_true_eq] at h
    simp [tcP, h.1.1, h.1.2]

/-- Branch characterization of `has_insufficient_material`. -/
theorem him_iff {b : Board} :
    has_insufficient_material b = true ↔
      ((piecesList b).length = 2 ∨
       ((piecesList b).length = 3 ∧ 0 < (piecesList b).countP minorP) ∨
       ((piecesList b).length = 4 ∧ ∃ u v, (piecesList b).filter bishP = [u, v] ∧
          sqColor u.2.2 = sqColor v.2.2 ∧ u.2.1 ≠ v.2.1)) := by
  unfold has_insufficient_material
  by_cases h2 : (piecesList b).length = 2
  · simp [h2]
  rw [if_neg h2]
  by_cases h3 : (piecesList b).length = 3 ∧
      (piecesList b).any (fun p => decide (p.1 = KNIGHT ∨ p.1 = BISHOP))
  · rw [if_pos h3]
    have hpos : 0 < (piecesList b).countP minorP := by
      rcases List.any_eq_true.mp h3.2 with ⟨p, hp, hdec⟩
      exact List.countP_pos_iff.mpr ⟨p, hp, by simpa [minorP] using hdec⟩
    simp [h3.1, hpos]
  rw [if_neg h3]
  by_cases h4 : (piecesList b).length = 4
  · rw [if_pos h4]
    have hnot3 : ¬ (piecesList b).length = 3 := by omega
    show (let bishops := ((piecesList b).filter fun p => decide (p.1 = BISHOP)).map
            fun p => (p.2.2, p.2.1);
          if bishops.length = 2 then _ else false) = true ↔ _
    simp only [List.length_map]
    by_cases hb : ((piecesList b).filter fun p => decide (p.1 = BISHOP)).length = 2
    · obtain ⟨u, v, huv⟩ := List.length_eq_two.mp hb
      rw [if_pos hb]
      have hbF : (piecesList b).filter bishP = [u, v] := huv
      rw [huv]
      simp only [List.map_cons, List.map_nil, decide_eq_true_eq]
      constructor
      · intro hcond
        exact Or.inr (Or.inr ⟨h4, u, v, hbF, hcond.1, hcond.2⟩)
      · rintro (h | ⟨h, _⟩ | ⟨_, u1, v1, huv1, hcolr, hne⟩)
        · exact absurd h h2
        · exact absurd h hnot3
        · rw [hbF] at huv1
          obtain ⟨rfl, rfl, _⟩ :
              u1 = u ∧ v1 = v ∧ ([] : List (Nat × Nat × Nat)) = [] := by
            injection huv1 with e1 e2
            injection e2 with e2 e3
            exact ⟨e1.symm, e2.symm, rfl⟩
          exact ⟨hcolr, hne⟩
    · rw [if_neg hb]
      simp only [Bool.false_eq_true, false_iff]
      rintro (h | ⟨h, _⟩ | ⟨_, u1, v1, huv1, _, _⟩)
      · exact h2 h
      · exact hnot3 h
      · exact hb (by rw [show ((piecesList b).filter fun p => decide (p.1 = BISHOP)) =
          (piecesList b).filter bishP from rfl, huv1]; rfl)
  · rw [if_neg h4]
    simp only [Bool.false_eq_true, false_iff]
    rintro (h | ⟨h, hmin⟩ | ⟨h, _⟩)
    · exact h2 h
    · rcases List.countP_pos_iff.mp hmin with ⟨p, hp, hdec⟩
      exact h3 ⟨h, List.any_eq_true.mpr ⟨p, hp, by simpa [minorP] using hdec⟩⟩
    · exact h4 h

theorem him_spec_mp {b : Board} (hv : boardValid b)
    (hWK : countCode b WHITE_KING = 1) (hBK : countCode b BLACK_KING = 1)
    (h : has_insufficient_material b = true) : insufficientMaterialSpec b := by
  have hK2 := kings_two hv hWK hBK
  have hLen := length_pieces_split (b := b)
  have hMin := notKing_split_minor (b := b)
  have hMin4 := minor_split hv
  have hBi := notKing_split_bishop (b := b)
  have ePW := countCode_bridge hv WHITE_PAWN PAWN WHITE (by decide) (by decide) (by decide)
  have ePB := countCode_bridge hv BLACK_PAWN PAWN BLACK (by decide) (by decide) (by decide)
  have eNW := countCode_bridge hv WHITE_KNIGHT KNIGHT WHITE (by decide) (by decide) (by decide)
  have eNB := countCode_bridge hv BLACK_KNIGHT KNIGHT BLACK (by decide) (by decide) (by decide)
  have eBW := countCode_bridge hv WHITE_BISHOP BISHOP WHITE (by decide) (by decide) (by decide)
  have eBB := countCode_bridge hv BLACK_BISHOP BISHOP BLACK (by decide) (by decide) (by decide)
  have eRW := countCode_bridge hv WHITE_ROOK ROOK WHITE (by decide) (by decide) (by decide)
  have eRB := countCode_bridge hv BLACK_ROOK ROOK BLACK (by decide) (by decide) (by decide)
  have eQW := countCode_bridge hv WHITE_QUEEN QUEEN WHITE (by decide) (by decide) (by decide)
  have eQB := countCode_bridge hv BLACK_QUEEN QUEEN BLACK (by decide) (by decide) (by decide)
  simp only [insufficientMaterialSpec]
  rcases him_iff.mp h with hA | ⟨hl3, hmin⟩ | ⟨hl4, u, v, hF, hsc, hne⟩
  · -- king versus king
    have hnk : (piecesList b).countP notKingP = 0 := by omega
    have hb1 := countTC_le_notKing (b := b) PAWN WHITE (by decide)
    have hb2 := countTC_le_notKing (b := b) PAWN BLACK (by decide)
    have hb3 := countTC_le_notKing (b := b) KNIGHT WHITE (by decide)
    have hb4 := countTC_le_notKing (b := b) KNIGHT BLACK (by decide)
    have hb5 := countTC_le_notKing (b := b) BISHOP WHITE (by decide)
    have hb6 := countTC_le_notKing (b := b) BISHOP BLACK (by decide)
    have hb7 := countTC_le_notKing (b := b) ROOK WHITE (by decide)
    have hb8 := countTC_le_notKing (b := b) ROOK BLACK (by decide)
    have hb9 := countTC_le_notKing (b := b) QUEEN WHITE (by decide)
    have hb10 := countTC_le_notKing (b := b) QUEEN BLACK (by decide)
    left
    refine ⟨?_, ?_, ?_, ?_, ?_, ?_, ?_, ?_, ?_, ?_⟩ <;> omega
  · -- king plus one minor versus king
    have hnk1 : (piecesList b).countP notKingP = 1 := by omega
    have hminle : (piecesList b).countP minorP ≤ 1 := by omega
    have hmin1 : (piecesList b).countP minorP = 1 := by omega
    have hheavy : (piecesList b).countP heavyP = 0 := by omega
    have hb1 := countTC_le_heavy (b := b) PAWN WHITE (by decide) (by decide) (by decide)
    have hb2 := countTC_le_heavy (b := b) PAWN BLACK (by decide) (by decide) (by decide)
    have hb7 := countTC_le_heavy (b := b) ROOK WHITE (by decide) (by decide) (by decide)
    have hb8 := countTC_le_heavy (b := b) ROOK BLACK (by decide) (by decide) (by decide)
    have hb9 := countTC_le_heavy (b := b) QUEEN WHITE (by decide) (by decide) (by decide)
    have hb10 := countTC_le_heavy (b := b) QUEEN BLACK (by decide) (by decide) (by decide)
    right
    left
    refine ⟨?_, ?_, ?_, ?_, ?_, ?_, ?_⟩ <;> omega
  · -- two same-colored bishops
    have hFlen : ((piecesList b).filter bishP).length = 2 := by rw [hF]; rfl
    have hnb : (piecesList b).countP bishP = 2 := by
      rw [List.countP_eq_length_filter]; exact hFlen
    have hnk2 : (piecesList b).countP notKingP = 2 := by omega
    have hnkb : (piecesList b).countP nkbP = 0 := by omega
    have hb1 := countTC_le_nkb (b := b) PAWN WHITE (by decide) (by decide)
    have hb2 := countTC_le_nkb (b := b) PAWN BLACK (by decide) (by decide)
    have hb3 := countTC_le_nkb (b := b) KNIGHT WHITE (by decide) (by decide)
    have hb4 := countTC_le_nkb (b := b) KNIGHT BLACK (by decide) (by decide)
    have hb7 := countTC_le_nkb (b := b) ROOK WHITE (by decide) (by decide)
    have hb8 := countTC_le_nkb (b := b) ROOK BLACK (by decide) (by decide)
    have hb9 := countTC_le_nkb (b := b) QUEEN WHITE (by decide) (by decide)
    have hb10 := countTC_le_nkb (b := b) QUEEN BLACK (by decide) (by decide)
    have hu : u ∈ (piecesList b).filter bishP := by rw [hF]; simp
    have hvm : v ∈ (piecesList b).filter bishP := by rw [hF]; simp
    have huL : u ∈ piecesList b := (List.mem_filter.mp hu).1
    have hvL : v ∈ piecesList b := (List.mem_filter.mp hvm).1
    have hub : u.1 = BISHOP := by
      have := (List.mem_filter.mp hu).2
      simpa [bishP] using this
    have hvb : v.1 = BISHOP := by
      have := (List.mem_filter.mp hvm).2
      simpa [bishP] using this
    have hwc := countTC_bishop_filter (b := b) WHITE
    have hbc := countTC_bishop_filter (b := b) BLACK
    rw [hF] at hwc hbc
    rcases pieces_color_cases hv huL with hcu | hcu <;>
      rcases pieces_color_cases hv hvL with hcv | hcv
    · exact absurd (hcu.trans hcv.symm) hne
    all_goals try (
      first
      | (exact absurd (hcu.trans hcv.symm) hne))
    · -- u white, v black
      have hwc1 : countTC b BISHOP WHITE = 1 := by
        rw [hwc]
        simp [List.countP_cons, tcP, hub, hvb, hcu, hcv, WHITE, BLACK]
      have hbc1 : countTC b BISHOP BLACK = 1 := by
        rw [hbc]
        simp [List.countP_cons, tcP, hub, hvb, hcu, hcv, WHITE, BLACK]
      right
      right
      refine ⟨by omega, by omega, by omega, by omega, by omega, by omega, by omega, by omega,
        by omega, by omega, ?_⟩
      intro s hs64 t ht64 hws hwt
      have hTs : (BISHOP, WHITE, s) ∈ piecesList b := by
        have h0 := piecesList_mem_of_sq (b := b) hs64 (by rw [hws]; decide)
        rw [hws] at h0
        have e1 : get_piece_type WHITE_BISHOP = BISHOP := by decide
        have e2 : get_piece_color WHITE_BISHOP = WHITE := by decide
        rw [e1, e2] at h0
        exact h0
      have hTt : (BISHOP, BLACK, t) ∈ piecesList b := by
        have h0 := piecesList_mem_of_sq (b := b) ht64 (by rw [hwt]; decide)
        rw [hwt] at h0
        have e1 : get_piece_type BLACK_BISHOP = BISHOP := by decide
        have e2 : get_piece_color BLACK_BISHOP = BLACK := by decide
        rw [e1, e2] at h0
        exact h0
      have hTsF : (BISHOP, WHITE, s) ∈ (piecesList b).filter bishP :=
        List.mem_filter.mpr ⟨hTs, by simp [bishP]⟩
      have hTtF : (BISHOP, BLACK, t) ∈ (piecesList b).filter bishP :=
        List.mem_filter.mpr ⟨hTt, by simp [bishP]⟩
      rw [hF] at hTsF hTtF
      simp only [List.mem_cons, List.not_mem_nil, or_false] at hTsF hTtF
      rcases hTsF with hTsF | hTsF <;> rcases hTtF with hTtF | hTtF
      · -- both equal u: color clash
        have c1 : u.2.1 = WHITE := by rw [← hTsF]
        have c2 : u.2.1 = BLACK := by rw [← hTtF]
        rw [c1] at c2
        exact absurd c2 (by decide)
      · have es : u.2.2 = s := by rw [← hTsF]
        have et : v.2.2 = t := by rw [← hTtF]
        rw [← es, ← et]
        exact hsc
      · have es : v.2.2 = s := by rw [← hTsF]
        have et : u.2.2 = t := by rw [← hTtF]
        rw [← es, ← et]
        exact hsc.symm
      · have c1 : v.2.1 = WHITE := by rw [← hTsF]
        have c2 : v.2.1 = BLACK := by rw [← hTtF]
        rw [c1] at c2
        exact absurd c2 (by decide)
    · -- u black, v white
      have hwc1 : countTC b BISHOP WHITE = 1 := by
        rw [hwc]
        simp [List.countP_cons, tcP, hub, hvb, hcu, hcv, WHITE, BLACK]
      have hbc1 : countTC b BISHOP BLACK = 1 := by
        rw [hbc]
        simp [List.countP_cons, tcP, hub, hvb, hcu, hcv, WHITE, BLACK]
      right
      right
      refine ⟨by omega, by omega, by omega, by omega, by omega, by omega, by omega, by omega,
        by omega, by omega, ?_⟩
      intro s hs64 t ht64 hws hwt
      have hTs : (BISHOP, WHITE, s) ∈ piecesList b := by
        have h0 := piecesList_mem_of_sq (b := b) hs64 (by rw [hws]; decide)
        rw [hws] at h0
        have e1 : get_piece_type WHITE_BISHOP = BISHOP := by decide
        have e2 : get_piece_color WHITE_BISHOP = WHITE := by decide
        rw [e1, e2] at h0
        exact h0
      have hTt : (BISHOP, BLACK, t) ∈ piecesList b := by
        have h0 := piecesList_mem_of_sq (b := b) ht64 (by rw [hwt]; decide)
        rw [hwt] at h0
        have e1 : get_piece_type BLACK_BISHOP = BISHOP := by decide
        have e2 : get_piece_color BLACK_BISHOP = BLACK := by decide
        rw [e1, e2] at h0
        exact h0
      have hTsF : (BISHOP, WHITE, s) ∈ (piecesList b).filter bishP :=
        List.mem_filter.mpr ⟨hTs, by simp [bishP]⟩
      have hTtF : (BISHOP, BLACK, t) ∈ (piecesList b).filter bishP :=
        List.mem_filter.mpr ⟨hTt, by simp [bishP]⟩
      rw [hF] at hTsF hTtF
      simp only [List.mem_cons, List.not_mem_nil, or_false] at hTsF hTtF
      rcases hTsF with hTsF | hTsF <;> rcases hTtF with hTtF | hTtF
      · have c1 : u.2.1 = WHITE := by rw [← hTsF]
        have c2 : u.2.1 = BLACK := by rw [← hTtF]
        rw [c1] at c2
        exact absurd c2 (by decide)
      · have es : u.2.2 = s := by rw [← hTsF]
        have et : v.2.2 = t := by rw [← hTtF]
        rw [← es, ← et]
        exact hsc
      · have es : v.2.2 = s := by rw [← hTsF]
        have et : u.2.2 = t := by rw [← hTtF]
        rw [← es, ← et]
        exact hsc.symm
      · have c1 : v.2.1 = WHITE := by rw [← hTsF]
        have c2 : v.2.1 = BLACK := by rw [← hTtF]
        rw [c1] at c2
        exact absurd c2 (by decide)

theorem him_spec_mpr {b : Board} (hv : boardValid b)
    (hWK : countCode b WHITE_KING = 1) (hBK : countCode b BLACK_KING = 1)
    (hs : insufficientMaterialSpec b) : has_insufficient_material b = true := by
  have hK2 := kings_two hv hWK hBK
  have hLen := length_pieces_split (b := b)
  have hMin := notKing_split_minor (b := b)
  have hMin4 := minor_split hv
  have hBi := notKing_split_bishop (b := b)
  have ePW := countCode_bridge hv WHITE_PAWN PAWN WHITE (by decide) (by decide) (by decide)
  have ePB := countCode_bridge hv BLACK_PAWN PAWN BLACK (by decide) (by decide) (by decide)
  have eNW := countCode_bridge hv WHITE_KNIGHT KNIGHT WHITE (by decide) (by decide) (by decide)
  have eNB := countCode_bridge hv BLACK_KNIGHT KNIGHT BLACK (by decide) (by decide) (by decide)
  have eBW := countCode_bridge hv WHITE_BISHOP BISHOP WHITE (by decide) (by decide) (by decide)
  have eBB := countCode_bridge hv BLACK_BISHOP BISHOP BLACK (by decide) (by decide) (by decide)
  have eRW := countCode_bridge hv WHITE_ROOK ROOK WHITE (by decide) (by decide) (by decide)
  have eRB := countCode_bridge hv BLACK_ROOK ROOK BLACK (by decide) (by decide) (by decide)
  have eQW := countCode_bridge hv WHITE_QUEEN QUEEN WHITE (by decide) (by decide) (by decide)
  have eQB := countCode_bridge hv BLACK_QUEEN QUEEN BLACK (by decide) (by decide) (by decide)
  simp only [insufficientMaterialSpec] at hs
  apply him_iff.mpr
  rcases hs with ⟨z1, z2, z3, z4, z5, z6, z7, z8, z9, z10⟩ | ⟨z1, z2, z3, z4, z5, z6, zm⟩ |
    ⟨z1, z2, z3, z4, z5, z6, z7, z8, zbw, zbb, hall⟩
  · -- king versus king
    have hheavy : (piecesList b).countP heavyP = 0 :=
      heavy_zero hv (by omega) (by omega) (by omega) (by omega) (by omega) (by omega)
    have hmin0 : (piecesList b).countP minorP = 0 := by omega
    have hnk : (piecesList b).countP notKingP = 0 := by omega
    left
    omega
  · -- king plus minor versus king
    have hheavy : (piecesList b).countP heavyP = 0 :=
      heavy_zero hv (by omega) (by omega) (by omega) (by omega) (by omega) (by omega)
    have hmin1 : (piecesList b).countP minorP = 1 := by omega
    have hnk : (piecesList b).countP notKingP = 1 := by omega
    right
    left
    constructor
    · omega
    · omega
  · -- bishops on same-colored squares
    have hnkb : (piecesList b).countP nkbP = 0 :=
      nkb_zero hv (by omega) (by omega) (by omega) (by omega) (by omega) (by omega)
        (by omega) (by omega)
    have hnb : (piecesList b).countP bishP = 2 := by
      have hsplit : (piecesList b).countP (fun p => decide (p.1 = BISHOP))
          = countTC b BISHOP WHITE + countTC b BISHOP BLACK :=
        countP_type_split_colors hv BISHOP
      show (piecesList b).countP (fun p => decide (p.1 = BISHOP)) = 2
      omega
    have hnk : (piecesList b).countP notKingP = 2 := by omega
    have hFlen : ((piecesList b).filter bishP).length = 2 := by
      rw [← List.countP_eq_length_filter]
      exact hnb
    obtain ⟨u, v, hF⟩ := List.length_eq_two.mp hFlen
    have hu : u ∈ (piecesList b).filter bishP := by rw [hF]; simp
    have hvm : v ∈ (piecesList b).filter bishP := by rw [hF]; simp
    have huL : u ∈ piecesList b := (List.mem_filter.mp hu).1
    have hvL : v ∈ piecesList b := (List.mem_filter.mp hvm).1
    have hub : u.1 = BISHOP := by
      have := (List.mem_filter.mp hu).2
      simpa [bishP] using this
    have hvb : v.1 = BISHOP := by
      have := (List.mem_filter.mp hvm).2
      simpa [bishP] using this
    have hwc := countTC_bishop_filter (b := b) WHITE
    have hbc := countTC_bishop_filter (b := b) BLACK
    rw [hF] at hwc hbc
    right
    right
    refine ⟨by omega, u, v, hF, ?_⟩
    rcases pieces_color_cases hv huL with hcu | hcu <;>
      rcases pieces_color_cases hv hvL with hcv | hcv
    · -- both white: contradicts the white-bishop count of 1
      exfalso
      have : countTC b BISHOP WHITE = 2 := by
        rw [hwc]
        simp [List.countP_cons, tcP, hub, hvb, hcu, hcv]
      omega
    · -- u white, v black
      have h64u := (pieces_square_code hv huL (show WHITE_BISHOP ∈ validPieceCodes by decide)
        (by rw [hub]; decide) (by rw [hcu]; decide))
      have h64v := (pieces_square_code hv hvL (show BLACK_BISHOP ∈ validPieceCodes by decide)
        (by rw [hvb]; decide) (by rw [hcv]; decide))
      refine ⟨hall u.2.2 h64u.1 v.2.2 h64v.1 h64u.2 h64v.2, ?_⟩
      rw [hcu, hcv]
      decide
    · -- u black, v white
      have h64u := (pieces_square_code hv huL (show BLACK_BISHOP ∈ validPieceCodes by decide)
        (by rw [hub]; decide) (by rw [hcu]; decide))
      have h64v := (pieces_square_code hv hvL (show WHITE_BISHOP ∈ validPieceCodes by decide)
        (by rw [hvb]; decide) (by rw [hcv]; decide))
      refine ⟨(hall v.2.2 h64v.1 u.2.2 h64u.1 h64v.2 h64u.2).symm, ?_⟩
      rw [hcu, hcv]
      decide
    · -- both black: contradicts the black-bishop count of 1
      exfalso
      have : countTC b BISHOP BLACK = 2 := by
        rw [hbc]
        simp [List.countP_cons, tcP, hub, hvb, hcu, hcv]
      omega

/-- C7: `has_insufficient_material` returns `true` exactly when the
material on the board (carrying one king per side and only valid piece
codes) is king versus king; king plus one minor piece versus king; or king
plus bishop versus king plus bishop with both bishops on same-colored
squares.  In particular king plus two knights versus king is not reported
insufficient, as the witness below also checks. -/
theorem has_insufficient_material_characterization (b : Board) (hv : boardValid b)
    (hWK : countCode b WHITE_KING = 1) (hBK : countCode b BLACK_KING = 1) :
    has_insufficient_material b = true ↔ insufficientMaterialSpec b :=
  ⟨him_spec_mp hv hWK hBK, him_spec_mpr hv hWK hBK⟩

/-- A king-and-two-knights-versus-king position. -/
def bTwoKnights : Board := (from_fen hF0 "4k3/8/8/8/8/8/8/1NN1K3 w - - 0 1").getD (Board.new hF0)

/-- A king-and-knight-versus-king position. -/
def bOneKnight : Board := (from_fen hF0 "4k3/8/8/8/8/8/8/1N2K3 w - - 0 1").getD (Board.new hF0)

/-- Witness for C7 at two concrete positions: K+N vs K is insufficient (by
`mpr` of the characterization after checking the code side with `decide`),
and K+N+N vs K is not insufficient (contrapositive of `mp` with the spec
side refuted by `decide`). -/
theorem has_insufficient_material_characterization_witness :
    insufficientMaterialSpec bOneKnight ∧ has_insufficient_material bTwoKnights = false := by
  constructor
  · exact (has_insufficient_material_characterization bOneKnight
      (by unfold boardValid; decide) (by decide) (by decide)).mp (by decide)
  · by_contra hcon
    have htrue : has_insufficient_material bTwoKnights = true := by
      cases hval : has_insufficient_material bTwoKnights
      · exact absurd hval hcon
      · rfl
    have hspec := (has_insufficient_material_characterization bTwoKnights
      (by unfold boardValid; decide) (by decide) (by decide)).mp htrue
    revert hspec
    simp only [insufficientMaterialSpec]
    decide

/-! ## C1 development: the make/unmake round trip -/

theorem upd_self (f : Nat → Nat) (i v : Nat) : upd f i v i = v := by simp [upd]

theorem upd_ne (f : Nat → Nat) {j i : Nat} (v : Nat) (h : j ≠ i) : upd f i v j = f j := by
  simp [upd, h]

/-- Round trip for every non-castling, non-en-passant move (any squares,
any promotion): unconditional. -/
theorem make_unmake_normal (hF : HashFn) (b : Board) (mv : Move)
    (hc : mv.is_castling = false) (he : mv.is_en_passant = false) :
    unmake_move (make_move hF b mv).1 mv (make_move hF b mv).2 = b := by
  obtain ⟨sqs, stm, cr, ep, hmc, fmn, hist⟩ := b
  apply Board.ext
  case white_to_move => simp [make_move, unmake_move]
  case castling_rights => simp [make_move, unmake_move]
  case en_passant_square => simp [make_move, unmake_move]
  case halfmove_clock => simp [make_move, unmake_move]
  case fullmove_number =>
    cases stm <;> simp [make_move, unmake_move]
  case position_history => simp [make_move, unmake_move]
  case squares =>
    show (unmake_move (make_move hF ⟨sqs, stm, cr, ep, hmc, fmn, hist⟩ mv).1 mv
        (make_move hF ⟨sqs, stm, cr, ep, hmc, fmn, hist⟩ mv).2).squares = sqs
    funext j
    by_cases hto : j = mv.to_sq
    · subst hto
      simp [make_move, unmake_move, hc, he, upd_self]
    · by_cases hfrom : j = mv.from_sq
      · subst hfrom
        simp [make_move, unmake_move, hc, he, upd_self, upd_ne _ _ hto]
      · simp only [make_move, unmake_move, hc, he, Bool.false_eq_true, if_false]
        split_ifs <;>
          simp [upd_ne _ _ hto, upd_ne _ _ hfrom]

/-- Round trip for white kingside castling, given the rook on h1, empty
f1/g1, and a king square distinct from f1/g1/h1. -/
theorem make_unmake_castle6 (hF : HashFn) (b : Board) (mv : Move)
    (hc : mv.is_castling = true) (he : mv.is_en_passant = false) (hp : mv.promotion = 0)
    (hto : mv.to_sq = 6)
    (h5 : b.squares 5 = EMPTY) (h7 : b.squares 7 = WHITE_ROOK)
    (hf5 : mv.from_sq ≠ 5) (hf6 : mv.from_sq ≠ 6) (hf7 : mv.from_sq ≠ 7) :
    unmake_move (make_move hF b mv).1 mv (make_move hF b mv).2 = b := by
  obtain ⟨sqs, stm, cr, ep, hmc, fmn, hist⟩ := b
  have h5' : sqs 5 = EMPTY := h5
  have h7' : sqs 7 = WHITE_ROOK := h7
  apply Board.ext
  case white_to_move => simp [make_move, unmake_move]
  case castling_rights => simp [make_move, unmake_move]
  case en_passant_square => simp [make_move, unmake_move]
  case halfmove_clock => simp [make_move, unmake_move]
  case fullmove_number =>
    cases stm <;> simp [make_move, unmake_move]
  case position_history => simp [make_move, unmake_move]
  case squares =>
    funext j
    by_cases hj7 : j = 7
    · subst hj7
      simp [make_move, unmake_move, hc, he, hp, hto, upd, h7']
    · by_cases hj5 : j = 5
      · subst hj5
        simp [make_move, unmake_move, hc, he, hp, hto, upd, h5']
      · by_cases hj6 : j = 6
        · subst hj6
          simp [make_move, unmake_move, hc, he, hp, hto, upd,
            (show (6 : Nat) ≠ 5 from by decide), (show (6 : Nat) ≠ 7 from by decide),
            Ne.symm hf6]
        · by_cases hjf : j = mv.from_sq
          · subst hjf
            simp [make_move, unmake_move, hc, he, hp, hto, upd, hf5, hf6, hf7]
          · simp [make_move, unmake_move, hc, he, hp, hto, upd, hj5, hj6, hj7, hjf]

/-- Round trip for white queenside castling. -/
theorem make_unmake_castle2 (hF : HashFn) (b : Board) (mv : Move)
    (hc : mv.is_castling = true) (he : mv.is_en_passant = false) (hp : mv.promotion = 0)
    (hto : mv.to_sq = 2)
    (h3 : b.squares 3 = EMPTY) (h0 : b.squares 0 = WHITE_ROOK)
    (hf0 : mv.from_sq ≠ 0) (hf2 : mv.from_sq ≠ 2) (hf3 : mv.from_sq ≠ 3) :
    unmake_move (make_move hF b mv).1 mv (make_move hF b mv).2 = b := by
  obtain ⟨sqs, stm, cr, ep, hmc, fmn, hist⟩ := b
  have h3' : sqs 3 = EMPTY := h3
  have h0' : sqs 0 = WHITE_ROOK := h0
  apply Board.ext
  case white_to_move => simp [make_move, unmake_move]
  case castling_rights => simp [make_move, unmake_move]
  case en_passant_square => simp [make_move, unmake_move]
  case halfmove_clock => simp [make_move, unmake_move]
  case fullmove_number =>
    cases stm <;> simp [make_move, unmake_move]
  case position_history => simp [make_move, unmake_move]
  case squares =>
    funext j
    by_cases hj0 : j = 0
    · subst hj0
      simp [make_move, unmake_move, hc, he, hp, hto, upd, h0']
    · by_cases hj3 : j = 3
      · subst hj3
        simp [make_move, unmake_move, hc, he, hp, hto, upd, h3']
      · by_cases hj2 : j = 2
        · subst hj2
          simp [make_move, unmake_move, hc, he, hp, hto, upd,
            (show (2 : Nat) ≠ 3 from by decide), (show (2 : Nat) ≠ 0 from by decide),
            Ne.symm hf2]
        · by_cases hjf : j = mv.from_sq
          · subst hjf
            simp [make_move, unmake_move, hc, he, hp, hto, upd, hf0, hf2, hf3]
          · simp [make_move, unmake_move, hc, he, hp, hto, upd, hj0, hj2, hj3, hjf]

/-- Round trip for black kingside castling. -/
theorem make_unmake_castle62 (hF : HashFn) (b : Board) (mv : Move)
    (hc : mv.is_castling = true) (he : mv.is_en_passant = false) (hp : mv.promotion = 0)
    (hto : mv.to_sq = 62)
    (h61 : b.squares 61 = EMPTY) (h63 : b.squares 63 = BLACK_ROOK)
    (hf61 : mv.from_sq ≠ 61) (hf62 : mv.from_sq ≠ 62) (hf63 : mv.from_sq ≠ 63) :
    unmake_move (make_move hF b mv).1 mv (make_move hF b mv).2 = b := by
  obtain ⟨sqs, stm, cr, ep, hmc, fmn, hist⟩ := b
  have h61' : sqs 61 = EMPTY := h61
  have h63' : sqs 63 = BLACK_ROOK := h63
  apply Board.ext
  case white_to_move => simp [make_move, unmake_move]
  case castling_rights => simp [make_move, unmake_move]
  case en_passant_square => simp [make_move, unmake_move]
  case halfmove_clock => simp [make_move, unmake_move]
  case fullmove_number =>
    cases stm <;> simp [make_move, unmake_move]
  case position_history => simp [make_move, unmake_move]
  case squares =>
    funext j
    by_cases hj63 : j = 63
    · subst hj63
      simp [make_move, unmake_move, hc, he, hp, hto, upd, h63']
    · by_cases hj61 : j = 61
      · subst hj61
        simp [make_move, unmake_move, hc, he, hp, hto, upd, h61']
      · by_cases hj62 : j = 62
        · subst hj62
          simp [make_move, unmake_move, hc, he, hp, hto, upd,
            (show (62 : Nat) ≠ 61 from by decide), (show (62 : Nat) ≠ 63 from by decide),
            Ne.symm hf62]
        · by_cases hjf : j = mv.from_sq
          · subst hjf
            simp [make_move, unmake_move, hc, he, hp, hto, upd, hf61, hf62, hf63]
          · simp [make_move, unmake_move, hc, he, hp, hto, upd, hj61, hj62, hj63, hjf]

/-- Round trip for black queenside castling. -/
theorem make_unmake_castle58 (hF : HashFn) (b : Board) (mv : Move)
    (hc : mv.is_castling = true) (he : mv.is_en_passant = false) (hp : mv.promotion = 0)
    (hto : mv.to_sq = 58)
    (h59 : b.squares 59 = EMPTY) (h56 : b.squares 56 = BLACK_ROOK)
    (hf56 : mv.from_sq ≠ 56) (hf58 : mv.from_sq ≠ 58) (hf59 : mv.from_sq ≠ 59) :
    unmake_move (make_move hF b mv).1 mv (make_move hF b mv).2 = b := by
  obtain ⟨sqs, stm, cr, ep, hmc, fmn, hist⟩ := b
  have h59' : sqs 59 = EMPTY := h59
  have h56' : sqs 56 = BLACK_ROOK := h56
  apply Board.ext
  case white_to_move => simp [make_move, unmake_move]
  case castling_rights => simp [make_move, unmake_move]
  case en_passant_square => simp [make_move, unmake_move]
  case halfmove_clock => simp [make_move, unmake_move]
  case fullmove_number =>
    cases stm <;> simp [make_move, unmake_move]
  case position_history => simp [make_move, unmake_move]
  case squares =>
    funext j
    by_cases hj56 : j = 56
    · subst hj56
      simp [make_move, unmake_move, hc, he, hp, hto, upd, h56']
    · by_cases hj59 : j = 59
      · subst hj59
        simp [make_move, unmake_move, hc, he, hp, hto, upd, h59']
      · by_cases hj58 : j = 58
        · subst hj58
          simp [make_move, unmake_move, hc, he, hp, hto, upd,
            (show (58 : Nat) ≠ 59 from by decide), (show (58 : Nat) ≠ 56 from by decide),
            Ne.symm hf58]
        · by_cases hjf : j = mv.from_sq
          · subst hjf
            simp [make_move, unmake_move, hc, he, hp, hto, upd, hf56, hf58, hf59]
          · simp [make_move, unmake_move, hc, he, hp, hto, upd, hj56, hj58, hj59, hjf]

/-- Round trip for a white en-passant capture: the target square is empty
and the captured black pawn stands behind it. -/
theorem make_unmake_ep_white (hF : HashFn) (b : Board) (mv : Move)
    (hc : mv.is_castling = false) (he : mv.is_en_passant = true) (hp : mv.promotion = 0)
    (hstm : b.white_to_move = true) (h8 : 8 ≤ mv.to_sq)
    (hte : b.squares mv.to_sq = EMPTY)
    (hbp : b.squares (mv.to_sq - 8) = BLACK_PAWN)
    (hfrom1 : mv.from_sq ≠ mv.to_sq) (hfrom2 : mv.from_sq ≠ mv.to_sq - 8) :
    unmake_move (make_move hF b mv).1 mv (make_move hF b mv).2 = b := by
  obtain ⟨sqs, stm, cr, ep, hmc, fmn, hist⟩ := b
  have hstm' : stm = true := hstm
  subst hstm'
  have hte' : sqs mv.to_sq = EMPTY := hte
  have hbp' : sqs (mv.to_sq - 8) = BLACK_PAWN := hbp
  have hne : mv.to_sq - 8 ≠ mv.to_sq := by omega
  apply Board.ext
  case white_to_move => simp [make_move, unmake_move]
  case castling_rights => simp [make_move, unmake_move]
  case en_passant_square => simp [make_move, unmake_move]
  case halfmove_clock => simp [make_move, unmake_move]
  case fullmove_number => simp [make_move, unmake_move]
  case position_history => simp [make_move, unmake_move]
  case squares =>
    funext j
    by_cases hjb : j = mv.to_sq - 8
    · subst hjb
      simp [make_move, unmake_move, hc, he, hp, upd, hbp']
    · by_cases hjt : j = mv.to_sq
      · subst hjt
        simp [make_move, unmake_move, hc, he, hp, upd, hne, Ne.symm hne, hte']
      · by_cases hjf : j = mv.from_sq
        · subst hjf
          simp [make_move, unmake_move, hc, he, hp, upd, hfrom1, hfrom2]
        · simp [make_move, unmake_move, hc, he, hp, upd, hjb, hjt, hjf]

/-- Round trip for a black en-passant capture. -/
theorem make_unmake_ep_black (hF : HashFn) (b : Board) (mv : Move)
    (hc : mv.is_castling = false) (he : mv.is_en_passant = true) (hp : mv.promotion = 0)
    (hstm : b.white_to_move = false)
    (hte : b.squares mv.to_sq = EMPTY)
    (hwp : b.squares (mv.to_sq + 8) = WHITE_PAWN)
    (hfrom1 : mv.from_sq ≠ mv.to_sq) (hfrom2 : mv.from_sq ≠ mv.to_sq + 8) :
    unmake_move (make_move hF b mv).1 mv (make_move hF b mv).2 = b := by
  obtain ⟨sqs, stm, cr, ep, hmc, fmn, hist⟩ := b
  have hstm' : stm = false := hstm
  subst hstm'
  have hte' : sqs mv.to_sq = EMPTY := hte
  have hwp' : sqs (mv.to_sq + 8) = WHITE_PAWN := hwp
  have hne : mv.to_sq + 8 ≠ mv.to_sq := by omega
  apply Board.ext
  case white_to_move => simp [make_move, unmake_move]
  case castling_rights => simp [make_move, unmake_move]
  case en_passant_square => simp [make_move, unmake_move]
  case halfmove_clock => simp [make_move, unmake_move]
  case fullmove_number => simp [make_move, unmake_move]
  case position_history => simp [make_move, unmake_move]
  case squares =>
    funext j
    by_cases hjb : j = mv.to_sq + 8
    · subst hjb
      simp [make_move, unmake_move, hc, he, hp, upd, hwp']
    · by_cases hjt : j = mv.to_sq
      · subst hjt
        simp [make_move, unmake_move, hc, he, hp, upd, hne, Ne.symm hne, hte']
      · by_cases hjf : j = mv.from_sq
        · subst hjf
          simp [make_move, unmake_move, hc, he, hp, upd, hfrom1, hfrom2]
        · simp [make_move, unmake_move, hc, he, hp, upd, hjb, hjt, hjf]

theorem mem_ite_list {α : Type} {c : Prop} [Decidable c] {a : α} {l1 l2 : List α}
    (h : a ∈ (if c then l1 else l2)) : (c ∧ a ∈ l1) ∨ (¬c ∧ a ∈ l2) := by
  by_cases hc : c
  · rw [if_pos hc] at h
    exact Or.inl ⟨hc, h⟩
  · rw [if_neg hc] at h
    exact Or.inr ⟨hc, h⟩

/-- Shape of generated pawn moves: they start on the pawn's square, are
never castling, and an en-passant move targets exactly the board's
en-passant square with no promotion. -/
theorem pawn_move_shape {b : Board} {sq : Nat} {mv : Move}
    (h : mv ∈ generate_pawn_moves b sq) :
    mv.from_sq = sq ∧ mv.is_castling = false ∧
      (mv.is_en_passant = false ∨
       (mv.is_en_passant = true ∧ mv.promotion = 0 ∧ 0 ≤ b.en_passant_square ∧
        mv.to_sq = b.en_passant_square.toNat)) := by
  simp only [generate_pawn_moves] at h
  rcases List.mem_append.mp h with h | h
  · rcases mem_ite_list h with ⟨_, h⟩ | ⟨_, h⟩
    swap
    · exact absurd h (by simp)
    rcases mem_ite_list h with ⟨_, h⟩ | ⟨_, h⟩
    swap
    · exact absurd h (by simp)
    rcases mem_ite_list h with ⟨_, h⟩ | ⟨_, h⟩
    · obtain ⟨p, _, rfl⟩ := List.mem_map.mp h
      exact ⟨rfl, rfl, Or.inl rfl⟩
    · rcases List.mem_cons.mp h with rfl | h
      · exact ⟨rfl, rfl, Or.inl rfl⟩
      · rcases mem_ite_list h with ⟨_, h⟩ | ⟨_, h⟩
        swap
        · exact absurd h (by simp)
        rcases mem_ite_list h with ⟨_, h⟩ | ⟨_, h⟩
        swap
        · exact absurd h (by simp)
        rw [List.mem_singleton] at h
        subst h
        exact ⟨rfl, rfl, Or.inl rfl⟩
  · obtain ⟨off, _, h⟩ := List.mem_flatMap.mp h
    rcases mem_ite_list h with ⟨_, h⟩ | ⟨_, h⟩
    swap
    · exact absurd h (by simp)
    rcases mem_ite_list h with ⟨_, h⟩ | ⟨_, h⟩
    swap
    · exact absurd h (by simp)
    rcases List.mem_append.mp h with h | h
    · rcases mem_ite_list h with ⟨_, h⟩ | ⟨_, h⟩
      swap
      · exact absurd h (by simp)
      rcases mem_ite_list h with ⟨_, h⟩ | ⟨_, h⟩
      · obtain ⟨p, _, rfl⟩ := List.mem_map.mp h
        exact ⟨rfl, rfl, Or.inl rfl⟩
      · rw [List.mem_singleton] at h
        subst h
        exact ⟨rfl, rfl, Or.inl rfl⟩
    · rcases mem_ite_list h with ⟨hep, h⟩ | ⟨_, h⟩
      swap
      · exact absurd h (by simp)
      rw [List.mem_singleton] at h
      subst h
      exact ⟨rfl, rfl, Or.inr ⟨rfl, rfl, hep.1, hep.2⟩⟩

/-- Shape of generated knight moves: plain moves. -/
theorem knight_move_shape {b : Board} {sq : Nat} {mv : Move}
    (h : mv ∈ generate_knight_moves b sq) :
    mv.is_castling = false ∧ mv.is_en_passant = false := by
  simp only [generate_knight_moves] at h
  obtain ⟨off, _, h⟩ := List.mem_flatMap.mp h
  rcases mem_ite_list h with ⟨_, h⟩ | ⟨_, h⟩
  swap
  · exact absurd h (by simp)
  rcases mem_ite_list h with ⟨_, h⟩ | ⟨_, h⟩
  · exact absurd h (by simp)
  · rcases mem_ite_list h with ⟨_, h⟩ | ⟨_, h⟩
    swap
    · exact absurd h (by simp)
    rw [List.mem_singleton] at h
    subst h
    exact ⟨rfl, rfl⟩

/-- Shape of ray walks: plain moves from the walk's origin. -/
theorem slide_ray_shape {b : Board} {color sq : Nat} {direction : Int} {mv : Move} :
    ∀ fuel current, mv ∈ slide_ray b color sq direction fuel current →
      ∃ n, mv = Move.new sq n := by
  intro fuel
  induction fuel with
  | zero =>
    intro current h
    exact absurd h (by simp [slide_ray])
  | succ n ih =>
    intro current h
    simp only [slide_ray] at h
    rcases mem_ite_list h with ⟨_, h⟩ | ⟨_, h⟩
    swap
    · exact absurd h (by simp)
    rcases mem_ite_list h with ⟨_, h⟩ | ⟨_, h⟩
    · exact absurd h (by simp)
    rcases mem_ite_list h with ⟨_, h⟩ | ⟨_, h⟩
    · rcases List.mem_cons.mp h with rfl | h
      · exact ⟨_, rfl⟩
      · exact ih _ h
    · rcases mem_ite_list h with ⟨_, h⟩ | ⟨_, h⟩
      · rw [List.mem_singleton] at h
        subst h
        exact ⟨_, rfl⟩
      · exact absurd h (by simp)

/-- Shape of generated sliding moves: plain moves. -/
theorem sliding_move_shape {b : Board} {sq : Nat} {dirs : List Int} {mv : Move}
    (h : mv ∈ generate_sliding_moves b sq dirs) :
    mv.is_castling = false ∧ mv.is_en_passant = false := by
  simp only [generate_sliding_moves] at h
  obtain ⟨d, _, h⟩ := List.mem_flatMap.mp h
  obtain ⟨n, rfl⟩ := slide_ray_shape _ _ h
  exact ⟨rfl, rfl⟩

/-- Shape of generated king moves: plain moves, or a castling move from
the king's square to one of the four castling targets with the
corresponding right set and the crossed squares empty. -/
theorem king_move_shape {b : Board} {sq : Nat} {mv : Move}
    (h : mv ∈ generate_king_moves b sq) :
    (mv.is_castling = false ∧ mv.is_en_passant = false) ∨
    (mv.is_castling = true ∧ mv.is_en_passant = false ∧ mv.promotion = 0 ∧ mv.from_sq = sq ∧
      ((get_piece_color (b.squares sq) = WHITE ∧ mv.to_sq = 6 ∧
          b.castling_rights &&& CASTLE_WK ≠ 0 ∧ b.squares 5 = EMPTY ∧ b.squares 6 = EMPTY) ∨
       (get_piece_color (b.squares sq) = WHITE ∧ mv.to_sq = 2 ∧
          b.castling_rights &&& CASTLE_WQ ≠ 0 ∧ b.squares 1 = EMPTY ∧ b.squares 2 = EMPTY ∧
          b.squares 3 = EMPTY) ∨
       (¬ get_piece_color (b.squares sq) = WHITE ∧ mv.to_sq = 62 ∧
          b.castling_rights &&& CASTLE_BK ≠ 0 ∧ b.squares 61 = EMPTY ∧ b.squares 62 = EMPTY) ∨
       (¬ get_piece_color (b.squares sq) = WHITE ∧ mv.to_sq = 58 ∧
          b.castling_rights &&& CASTLE_BQ ≠ 0 ∧ b.squares 57 = EMPTY ∧ b.squares 58 = EMPTY ∧
          b.squares 59 = EMPTY))) := by
  simp only [generate_king_moves] at h
  rcases List.mem_append.mp h with h | h
  · obtain ⟨d, _, h⟩ := List.mem_flatMap.mp h
    rcases mem_ite_list h with ⟨_, h⟩ | ⟨_, h⟩
    swap
    · exact absurd h (by simp)
    rcases mem_ite_list h with ⟨_, h⟩ | ⟨_, h⟩
    · exact absurd h (by simp)
    rcases mem_ite_list h with ⟨_, h⟩ | ⟨_, h⟩
    swap
    · exact absurd h (by simp)
    rw [List.mem_singleton] at h
    subst h
    exact Or.inl ⟨rfl, rfl⟩
  · rcases mem_ite_list h with ⟨_, h⟩ | ⟨_, h⟩
    swap
    · exact absurd h (by simp)
    rcases mem_ite_list h with ⟨hwk, h⟩ | ⟨hbk, h⟩
    · rcases List.mem_append.mp h with h | h
      · rcases mem_ite_list h with ⟨hc, h⟩ | ⟨_, h⟩
        swap
        · exact absurd h (by simp)
        rw [List.mem_singleton] at h
        subst h
        exact Or.inr ⟨rfl, rfl, rfl, rfl, Or.inl ⟨hwk, rfl, hc.1, hc.2.1, hc.2.2.1⟩⟩
      · rcases mem_ite_list h with ⟨hc, h⟩ | ⟨_, h⟩
        swap
        · exact absurd h (by simp)
        rw [List.mem_singleton] at h
        subst h
        exact Or.inr ⟨rfl, rfl, rfl, rfl,
          Or.inr (Or.inl ⟨hwk, rfl, hc.1, hc.2.1, hc.2.2.1, hc.2.2.2.1⟩)⟩
    · rcases List.mem_append.mp h with h | h
      · rcases mem_ite_list h with ⟨hc, h⟩ | ⟨_, h⟩
        swap
        · exact absurd h (by simp)
        rw [List.mem_singleton] at h
        subst h
        exact Or.inr ⟨rfl, rfl, rfl, rfl,
          Or.inr (Or.inr (Or.inl ⟨hbk, rfl, hc.1, hc.2.1, hc.2.2.1⟩))⟩
      · rcases mem_ite_list h with ⟨hc, h⟩ | ⟨_, h⟩
        swap
        · exact absurd h (by simp)
        rw [List.mem_singleton] at h
        subst h
        exact Or.inr ⟨rfl, rfl, rfl, rfl,
          Or.inr (Or.inr (Or.inr ⟨hbk, rfl, hc.1, hc.2.1, hc.2.2.1, hc.2.2.2.1⟩))⟩

/-- Dispatch of the pseudo-legal generator: every generated move comes
from an occupied square of the side to move, routed by piece type. -/
theorem mem_pseudo_decomp {b : Board} {mv : Move}
    (h : mv ∈ generate_pseudo_legal_moves b) :
    ∃ sq, sq < 64 ∧ b.squares sq ≠ EMPTY ∧
      get_piece_color (b.squares sq) = (if b.white_to_move then WHITE else BLACK) ∧
      ((get_piece_type (b.squares sq) = PAWN ∧ mv ∈ generate_pawn_moves b sq) ∨
       (get_piece_type (b.squares sq) = KNIGHT ∧ mv ∈ generate_knight_moves b sq) ∨
       (get_piece_type (b.squares sq) = BISHOP ∧ mv ∈ generate_sliding_moves b sq BISHOP_DIRECTIONS) ∨
       (get_piece_type (b.squares sq) = ROOK ∧ mv ∈ generate_sliding_moves b sq ROOK_DIRECTIONS) ∨
       (get_piece_type (b.squares sq) = QUEEN ∧ mv ∈ generate_sliding_moves b sq QUEEN_DIRECTIONS) ∨
       (get_piece_type (b.squares sq) = KING ∧ mv ∈ generate_king_moves b sq)) := by
  simp only [generate_pseudo_legal_moves] at h
  obtain ⟨sq, hsq, h⟩ := List.mem_flatMap.mp h
  have h64 := List.mem_range.mp hsq
  rcases mem_ite_list h with ⟨_, h⟩ | ⟨hguard, h⟩
  · exact absurd h (by simp)
  push_neg at hguard
  refine ⟨sq, h64, hguard.1, hguard.2, ?_⟩
  rcases mem_ite_list h with ⟨ht, h⟩ | ⟨_, h⟩
  · exact Or.inl ⟨ht, h⟩
  rcases mem_ite_list h with ⟨ht, h⟩ | ⟨_, h⟩
  · exact Or.inr (Or.inl ⟨ht, h⟩)
  rcases mem_ite_list h with ⟨ht, h⟩ | ⟨_, h⟩
  · exact Or.inr (Or.inr (Or.inl ⟨ht, h⟩))
  rcases mem_ite_list h with ⟨ht, h⟩ | ⟨_, h⟩
  · exact Or.inr (Or.inr (Or.inr (Or.inl ⟨ht, h⟩)))
  rcases mem_ite_list h with ⟨ht, h⟩ | ⟨_, h⟩
  · exact Or.inr (Or.inr (Or.inr (Or.inr (Or.inl ⟨ht, h⟩))))
  rcases mem_ite_list h with ⟨ht, h⟩ | ⟨_, h⟩
  · exact Or.inr (Or.inr (Or.inr (Or.inr (Or.inr ⟨ht, h⟩))))
  · exact absurd h (by simp)

theorem from_ne_of_type {b : Board} {f x t1 code : Nat}
    (hf : get_piece_type (b.squares f) = t1) (hx : b.squares x = code)
    (hne : get_piece_type code ≠ t1) : f ≠ x := by
  intro he
  rw [he, hx] at hf
  exact hne hf

theorem from_ne_of_color {b : Board} {f x c1 code : Nat}
    (hf : get_piece_color (b.squares f) = c1) (hx : b.squares x = code)
    (hne : get_piece_color code ≠ c1) : f ≠ x := by
  intro he
  rw [he, hx] at hf
  exact hne hf

/-- C1 (amended): on a board satisfying the spec's castling-rights and
en-passant invariants, make followed by unmake of any pseudo-legal move
restores the board byte-identically — squares, side to move, castling
rights, en-passant square, clocks, and the position-history stack (one
hash pushed by make, popped by unmake). -/
theorem make_unmake_pseudo_legal (hF : HashFn) (b : Board) (mv : Move)
    (hci : castlingInvariant b) (hei : enPassantInvariant b)
    (hm : mv ∈ generate_pseudo_legal_moves b) :
    unmake_move (make_move hF b mv).1 mv (make_move hF b mv).2 = b := by
  obtain ⟨sq, h64, hocc, hcol, hbranch⟩ := mem_pseudo_decomp hm
  rcases hbranch with ⟨ht, hmem⟩ | ⟨ht, hmem⟩ | ⟨ht, hmem⟩ | ⟨ht, hmem⟩ | ⟨ht, hmem⟩ |
    ⟨ht, hmem⟩
  · -- pawn moves
    obtain ⟨hfrom, hcastle, hepcase⟩ := pawn_move_shape hmem
    rcases hepcase with hep | ⟨hep, hpromo, hepos, hto⟩
    · exact make_unmake_normal hF b mv hcastle hep
    · have htype_from : get_piece_type (b.squares mv.from_sq) = PAWN := by
        rw [hfrom]; exact ht
      rcases hei with hneg | ⟨hstm, e, hee, h40, _, hE, hBP⟩ |
        ⟨hstm, e, hee, h16, _, hE, hWP⟩
      · rw [hneg] at hepos
        exact absurd hepos (by norm_num)
      · -- white en passant
        have htoe : mv.to_sq = e := by
          rw [hto, hee]
          simp
        have hcol_from : get_piece_color (b.squares mv.from_sq) = WHITE := by
          rw [hfrom, hcol, hstm]
          simp
        refine make_unmake_ep_white hF b mv hcastle hep hpromo hstm (by omega)
          (by rw [htoe]; exact hE) (by rw [htoe]; exact hBP) ?_ ?_
        · exact from_ne_of_type htype_from (htoe ▸ hE) (by decide)
        · exact from_ne_of_color hcol_from (htoe ▸ hBP) (by decide)
      · -- black en passant
        have htoe : mv.to_sq = e := by
          rw [hto, hee]
          simp
        have hcol_from : get_piece_color (b.squares mv.from_sq) = BLACK := by
          rw [hfrom, hcol, hstm]
          simp
        refine make_unmake_ep_black hF b mv hcastle hep hpromo hstm
          (by rw [htoe]; exact hE) (by rw [htoe]; exact hWP) ?_ ?_
        · exact from_ne_of_type htype_from (htoe ▸ hE) (by decide)
        · exact from_ne_of_color hcol_from (htoe ▸ hWP) (by decide)
  · -- knight moves
    obtain ⟨hcastle, hep⟩ := knight_move_shape hmem
    exact make_unmake_normal hF b mv hcastle hep
  · -- bishop moves
    obtain ⟨hcastle, hep⟩ := sliding_move_shape hmem
    exact make_unmake_normal hF b mv hcastle hep
  · -- rook moves
    obtain ⟨hcastle, hep⟩ := sliding_move_shape hmem
    exact make_unmake_normal hF b mv hcastle hep
  · -- queen moves
    obtain ⟨hcastle, hep⟩ := sliding_move_shape hmem
    exact make_unmake_normal hF b mv hcastle hep
  · -- king moves
    rcases king_move_shape hmem with ⟨hcastle, hep⟩ |
      ⟨hcastle, hep, hpromo, hfrom, hcase⟩
    · exact make_unmake_normal hF b mv hcastle hep
    · have htype_from : get_piece_type (b.squares mv.from_sq) = KING := by
        rw [hfrom]; exact ht
      rcases hcase with ⟨_, hto, hr, h5, h6⟩ | ⟨_, hto, hr, h1, h2, h3⟩ |
        ⟨_, hto, hr, h61, h62⟩ | ⟨_, hto, hr, h57, h58, h59⟩
      · obtain ⟨_, h7⟩ := hci.1 hr
        exact make_unmake_castle6 hF b mv hcastle hep hpromo hto h5 h7
          (from_ne_of_type htype_from h5 (by decide))
          (from_ne_of_type htype_from h6 (by decide))
          (from_ne_of_type htype_from h7 (by decide))
      · obtain ⟨_, h0⟩ := hci.2.1 hr
        exact make_unmake_castle2 hF b mv hcastle hep hpromo hto h3 h0
          (from_ne_of_type htype_from h0 (by decide))
          (from_ne_of_type htype_from h2 (by decide))
          (from_ne_of_type htype_from h3 (by decide))
      · obtain ⟨_, h63⟩ := hci.2.2.1 hr
        exact make_unmake_castle62 hF b mv hcastle hep hpromo hto h61 h63
          (from_ne_of_type htype_from h61 (by decide))
          (from_ne_of_type htype_from h62 (by decide))
          (from_ne_of_type htype_from h63 (by decide))
      · obtain ⟨_, h56⟩ := hci.2.2.2 hr
        exact make_unmake_castle58 hF b mv hcastle hep hpromo hto h59 h56
          (from_ne_of_type htype_from h56 (by decide))
          (from_ne_of_type htype_from h58 (by decide))
          (from_ne_of_type htype_from h59 (by decide))

/-- A board with white kingside castling rights but no rook on h1: it
violates the spec's castling-rights invariant but is a perfectly
well-formed `Board` value. -/
def bNoRook : Board :=
  { squares := fun sq => if sq = 4 then WHITE_KING else if sq = 60 then BLACK_KING else EMPTY
    white_to_move := true
    castling_rights := 1
    en_passant_square := -1
    halfmove_clock := 0
    fullmove_number := 1
    position_history := [0] }

/-- The white kingside castling move e1g1. -/
def mvCastle : Move := ⟨4, 6, 0, true, false⟩

/-- A simple invariant-satisfying board: bare kings plus a white pawn on
e2, no castling rights, no en-passant square. -/
def bRound : Board :=
  { squares := fun sq =>
      if sq = 4 then WHITE_KING else if sq = 60 then BLACK_KING
      else if sq = 12 then WHITE_PAWN else EMPTY
    white_to_move := true
    castling_rights := 0
    en_passant_square := -1
    halfmove_clock := 0
    fullmove_number := 1
    position_history := [] }

/-- C1 counterexample: on `bNoRook` the generator emits the castling move
e1g1 (it checks the rights bit and the crossed squares, never the rook),
yet make followed by unmake does not restore the board — unmake
unconditionally writes a white rook back onto h1, which was empty. -/
theorem make_unmake_castling_counterexample :
    mvCastle ∈ generate_pseudo_legal_moves bNoRook ∧
      unmake_move (make_move hF0 bNoRook mvCastle).1 mvCastle
        (make_move hF0 bNoRook mvCastle).2 ≠ bNoRook := by
  refine ⟨by decide, fun h => ?_⟩
  have h7 := congrArg (fun bd => bd.squares 7) h
  revert h7
  decide

/-- C1 witness: the amended round-trip theorem applied to the concrete
invariant-satisfying board `bRound` and the pawn push e2e3. -/
theorem make_unmake_pseudo_legal_witness :
    castlingInvariant bRound ∧ enPassantInvariant bRound ∧
      Move.new 12 20 ∈ generate_pseudo_legal_moves bRound ∧
      unmake_move (make_move hF0 bRound (Move.new 12 20)).1 (Move.new 12 20)
        (make_move hF0 bRound (Move.new 12 20)).2 = bRound := by
  have hci : castlingInvariant bRound := by
    unfold castlingInvariant
    refine ⟨?_, ?_, ?_, ?_⟩ <;> (intro h; exact absurd rfl h)
  have hei : enPassantInvariant bRound := Or.inl rfl
  have hm : Move.new 12 20 ∈ generate_pseudo_legal_moves bRound := by decide
  exact ⟨hci, hei, hm, make_unmake_pseudo_legal hF0 bRound (Move.new 12 20) hci hei hm⟩

end OpusChess
